import Mathlib

/-!
Verification of the wexapi client library (romanyx/wexapi).

The development shallowly embeds the Go sources:
  * `client.go` — nonce generator (`nonce`, `NewClient`) and the tolerant
    boolean decoder (`convertibleBool.UnmarshalJSON`);
  * `public.go` / `trade.go` — the response pipeline (`publicRequest`,
    `tradeRequest`), the wire-format decoders (`Order.UnmarshalJSON`,
    `TradeOrders.UnmarshalJSON`, struct field decoding) and the request
    signer (`url.Values.Encode`, HMAC-SHA512, hex encoding);
  * `unix_timestamp.go` — the epoch-seconds timestamp decoder.

Machine integers are modelled as `Int`/`Nat` with explicit wrap-around where
the Go code can overflow.  Byte strings are `List Nat` (each byte < 256) in
the signer layer and `List Char` in the JSON layer.  Fallible operations
return `Except`.
-/

namespace Wexapi

/-! ## Int64 arithmetic (Go `int64` wraps on overflow) -/

/-- Two's-complement wrap of an integer into the `int64` range. -/
def wrap64 (z : Int) : Int := (z + 2 ^ 63) % 2 ^ 64 - 2 ^ 63

theorem wrap64_eq_self {z : Int} (h0 : -(2 ^ 63) ≤ z) (h1 : z < 2 ^ 63) :
    wrap64 z = z := by
  unfold wrap64
  have hlt : z + 2 ^ 63 < 2 ^ 64 := by omega
  have hle : 0 ≤ z + 2 ^ 63 := by omega
  rw [Int.emod_eq_of_lt hle hlt]
  omega

theorem wrap64_emod (z : Int) : (wrap64 z + 2 ^ 63) % 2 ^ 64 = (z + 2 ^ 63) % 2 ^ 64 := by
  unfold wrap64
  have h : (0:Int) < 2 ^ 64 := by positivity
  rw [Int.sub_add_cancel, Int.emod_emod_of_dvd _ (dvd_refl _)]

/-! ## Nonce generator from `client.go` (the `int64` channel variant in src)

`NewClient` seeds the single-slot channel `noncePool` with
`time.Now().Unix()`; each `nonce()` call receives the current counter,
re-deposits `counter + 1`, and returns the received value formatted in
base 10.  The channel serialises callers, so any concurrent execution hands
out the values of the sequential trace below, each to exactly one caller. -/

/-- Counter value deposited by `NewClient`: the wall-clock Unix seconds at
construction. -/
def newClientSeed (nowUnix : Int) : Int := nowUnix

/-- One `nonce()` call: returns the formatted counter and the counter that
the spawned goroutine re-deposits (`nonce + 1`, wrapping as Go `int64`). -/
def nonce (counter : Int) : String × Int := (toString counter, wrap64 (counter + 1))

/-- Counter values handed out by `n` successive `nonce()` calls starting
from `counter`. -/
def nonceTrace (counter : Int) : Nat → List Int
  | 0 => []
  | n + 1 => counter :: nonceTrace (nonce counter).2 n

theorem nonceTrace_closed_form (counter : Int) (n : Nat)
    (h0 : 0 ≤ counter) (h1 : counter + n < 2 ^ 63) :
    nonceTrace counter n = (List.range n).map (fun k : Nat => counter + k) := by
  induction n generalizing counter with
  | zero => simp [nonceTrace]
  | succ m ih =>
    have hw : (nonce counter).2 = counter + 1 := by
      have : wrap64 (counter + 1) = counter + 1 := by
        apply wrap64_eq_self
        · omega
        · have : (m:Int) + 1 = ((m + 1 : Nat) : Int) := by push_cast; ring
          omega
      simpa [nonce]
    have hrec := ih (counter + 1) (by omega)
      (by push_cast at h1 ⊢; omega)
    rw [nonceTrace, hw, hrec, List.range_succ_eq_map]
    simp only [List.map_cons, List.map_map]
    congr 1
    · simp
    · apply List.map_congr_left
      intro a _
      simp only [Function.comp_apply, Nat.succ_eq_add_one]
      push_cast
      ring

/-! ## Error taxonomy (`errors.Wrap` / `errors.Errorf` call sites)

Every error surfaced by the request pipeline carries one of the literal
prefixes below; the constructors keep the phases distinguishable and
`render` produces the exact Go error text. -/

inductive ReqError where
  | statusCode (code : Nat)
  | respondError (msg : String)
  | unmarshalBase (detail : String)
  | unmarshalResult (detail : String)
  | nonceExhausted
  deriving DecidableEq, Repr

/-- Error text as produced by the Go code. -/
def ReqError.render : ReqError → String
  | .statusCode code => "server respond with status code " ++ toString code
  | .respondError msg => "server respond with error: " ++ msg
  | .unmarshalBase detail => "unmarshal to base response: " ++ detail
  | .unmarshalResult detail => "unmarshal to result: " ++ detail
  | .nonceExhausted => "nonce exhausted"

/-! ## The bounded nonce generator exercised by `client_test.go`

The test `TestClient_nonce` drives a `noncePool chan uint32` variant whose
`nonce()` returns `(string, error)` and fails once the counter reaches
`math.MaxUint32 - 1`; that revision of `client.go` is not among the
sources, so the generator is modelled from the spec. -/

/-- Largest value representable in the accepted nonce width (`uint32`). -/
def maxUint32 : Nat := 2 ^ 32 - 1

/-- Modelled from the spec: the exhaustion-checking `nonce()` of the
`uint32` revision of `client.go` (absent from src; exercised by
`TestClient_nonce`).  "Some exchange variants enforce a hard upper bound
(e.g., value one less than the max representable in their accepted nonce
width); exceeding it must return a distinct 'exhausted' error signaling the
key must be rotated, and must leave the internal counter unchanged (the
failed attempt does not consume a nonce)."  The result pairs the call's
outcome with the counter value available to the next caller. -/
def nonceWithBound (counter : Nat) : Except ReqError String × Nat :=
  if counter = maxUint32 - 1 then
    (.error .nonceExhausted, counter)
  else
    (.ok (toString counter), counter + 1)

theorem pairwise_lt_nonceTrace (counter : Int) (n : Nat)
    (h0 : 0 ≤ counter) (h1 : counter + n < 2 ^ 63) :
    List.Pairwise (· < ·) (nonceTrace counter n) := by
  rw [nonceTrace_closed_form counter n h0 h1]
  refine List.Pairwise.map _ ?_ ?_ (l := List.range n) (R := (· < ·))
  · intro a b hab
    omega
  · exact List.pairwise_lt_range n

/-- C1: the nonce sequence of one generator starts at the wall-clock
Unix-seconds value captured at construction (`NewClient` seeds `noncePool`
with `time.Now().Unix()`), is strictly increasing across `n` sequential
`nonce()` calls, and hands out pairwise distinct values, so no two callers
of the serialising channel ever observe the same nonce.  (Stated for any
trace that does not overflow `int64`; a wall-clock seed satisfies
`0 ≤ now`.) -/
theorem nonce_sequence_strictly_increasing (nowUnix : Int) (n : Nat)
    (hclock : 0 ≤ nowUnix) (hrange : nowUnix + n < 2 ^ 63) :
    (0 < n → (nonceTrace (newClientSeed nowUnix) n).head? = some (newClientSeed nowUnix)) ∧
    List.Pairwise (· < ·) (nonceTrace (newClientSeed nowUnix) n) ∧
    List.Pairwise (· ≠ ·) (nonceTrace (newClientSeed nowUnix) n) := by
  refine ⟨?_, ?_, ?_⟩
  · intro hn
    cases n with
    | zero => omega
    | succ m => rfl
  · exact pairwise_lt_nonceTrace _ _ hclock hrange
  · exact (pairwise_lt_nonceTrace _ _ hclock hrange).imp ne_of_lt

/-- Witness for C1 at the seed `1370814956` and three calls. -/
theorem nonce_sequence_strictly_increasing_witness :
    (0 ≤ (1370814956 : Int) ∧ (1370814956 : Int) + (3 : Nat) < 2 ^ 63) ∧
    ((0 < 3 → (nonceTrace (newClientSeed 1370814956) 3).head? = some (newClientSeed 1370814956)) ∧
      List.Pairwise (· < ·) (nonceTrace (newClientSeed 1370814956) 3) ∧
      List.Pairwise (· ≠ ·) (nonceTrace (newClientSeed 1370814956) 3)) :=
  ⟨⟨by norm_num, by norm_num⟩,
    nonce_sequence_strictly_increasing 1370814956 3 (by norm_num) (by norm_num)⟩

/-- C2: with the counter at the configured maximum boundary
(`math.MaxUint32 - 1`), `nonce()` returns the distinct exhaustion error —
a constructor different from every transport (`statusCode`) and
application (`respondError`, `unmarshalBase`, `unmarshalResult`) error —
and leaves the counter unchanged, so the immediately following call still
observes the counter at that boundary and fails the same way. -/
theorem nonceWithBound_exhaustion :
    nonceWithBound (maxUint32 - 1) = (.error .nonceExhausted, maxUint32 - 1) ∧
    (nonceWithBound (maxUint32 - 1)).2 = maxUint32 - 1 ∧
    nonceWithBound (nonceWithBound (maxUint32 - 1)).2 =
      (.error .nonceExhausted, maxUint32 - 1) ∧
    (∀ c, ReqError.nonceExhausted ≠ ReqError.statusCode c) ∧
    (∀ m, ReqError.nonceExhausted ≠ ReqError.respondError m) ∧
    (∀ d, ReqError.nonceExhausted ≠ ReqError.unmarshalBase d) ∧
    (∀ d, ReqError.nonceExhausted ≠ ReqError.unmarshalResult d) := by
  refine ⟨rfl, rfl, rfl, ?_, ?_, ?_, ?_⟩ <;> intro x h <;> cases h

/-! ## JSON values and raw tokens

`encoding/json` hands each custom `UnmarshalJSON` the raw bytes of the
JSON value in place.  `Jval` is the parse tree of a JSON document;
`renderToken` reproduces the raw byte text of a value (compact form, as
the exchange transmits it). -/

inductive Jval where
  | null
  | bool (b : Bool)
  | num (lit : List Char)
  | str (s : List Char)
  | arr (elems : List Jval)
  | obj (fields : List (List Char × Jval))

/-- JSON string escaping for the characters that must be escaped. -/
def escapeJsonChar (c : Char) : List Char :=
  if c = '"' then ['\\', '"'] else if c = '\\' then ['\\', '\\'] else [c]

def escapeJsonChars (s : List Char) : List Char := s.flatMap escapeJsonChar

def lbrace : Char := Char.ofNat 123

def rbrace : Char := Char.ofNat 125

mutual

/-- Raw byte text of a JSON value (compact rendering). -/
def renderToken : Jval → List Char
  | .null => "null".toList
  | .bool true => "true".toList
  | .bool false => "false".toList
  | .num lit => lit
  | .str s => '"' :: escapeJsonChars s ++ ['"']
  | .arr xs => '[' :: renderArr xs ++ [']']
  | .obj fs => lbrace :: renderObj fs ++ [rbrace]

def renderArr : List Jval → List Char
  | [] => []
  | [x] => renderToken x
  | x :: y :: xs => renderToken x ++ ',' :: renderArr (y :: xs)

def renderObj : List (List Char × Jval) → List Char
  | [] => []
  | [(k, v)] => '"' :: escapeJsonChars k ++ '"' :: ':' :: renderToken v
  | (k, v) :: g :: fs =>
      ('"' :: escapeJsonChars k ++ '"' :: ':' :: renderToken v) ++ ',' :: renderObj (g :: fs)

end

/-! ## Tolerant boolean (`convertibleBool.UnmarshalJSON`) -/

/-- `strings.Trim(s, quote)`: remove all leading and trailing `"`. -/
def trimQuotes (s : List Char) : List Char :=
  ((s.dropWhile (fun c => c = '"')).reverse.dropWhile (fun c => c = '"')).reverse

/-- `convertibleBool.UnmarshalJSON` on the raw token bytes: trim the
quotes, accept `1`/`true` and `0`/`false`, reject everything else. -/
def convertibleBoolUnmarshal (data : List Char) : Except String Bool :=
  if trimQuotes data = "1".toList ∨ trimQuotes data = "true".toList then .ok true
  else if trimQuotes data = "0".toList ∨ trimQuotes data = "false".toList then .ok false
  else .error ("boolean unmarshal error: invalid input " ++ String.mk (trimQuotes data))

theorem dropWhile_quote_eq_self {l : List Char} (h : ∀ c ∈ l, ¬(c = '"')) :
    l.dropWhile (fun c => c = '"') = l := by
  cases l with
  | nil => rfl
  | cons a t =>
    rw [List.dropWhile_cons, if_neg (by simp [h a (List.mem_cons_self a t)])]

theorem trimQuotes_eq_self {l : List Char} (h : ∀ c ∈ l, ¬(c = '"')) : trimQuotes l = l := by
  unfold trimQuotes
  rw [dropWhile_quote_eq_self h,
    dropWhile_quote_eq_self (fun c hc => h c (List.mem_reverse.mp hc)),
    List.reverse_reverse]

theorem trimQuotes_quoted {s : List Char} (h : ∀ c ∈ s, ¬(c = '"')) :
    trimQuotes ('"' :: s ++ ['"']) = s := by
  unfold trimQuotes
  cases s with
  | nil => rfl
  | cons a t =>
    rw [List.cons_append, List.dropWhile_cons, if_pos (by simp), List.cons_append,
      List.dropWhile_cons, if_neg (by simp [h a (List.mem_cons_self a t)])]
    have h1 : (a :: (t ++ ['"'])).reverse = '"' :: (a :: t).reverse := by simp
    rw [h1, List.dropWhile_cons, if_pos (by simp),
      dropWhile_quote_eq_self (fun c hc => h c (List.mem_reverse.mp hc)),
      List.reverse_reverse]

theorem trimQuotes_of_ends {a b : Char} (ha : ¬(a = '"')) (hb : ¬(b = '"'))
    (t : List Char) : trimQuotes (a :: t ++ [b]) = a :: t ++ [b] := by
  unfold trimQuotes
  have h1 : (a :: (t ++ [b])).reverse = b :: (t.reverse ++ [a]) := by simp
  rw [List.cons_append, List.dropWhile_cons, if_neg (by simp [ha]), h1,
    List.dropWhile_cons, if_neg (by simp [hb])]
  simp [List.cons_append]

theorem escapeJsonChars_eq_self {s : List Char}
    (h : ∀ c ∈ s, ¬(c = '"') ∧ ¬(c = '\\')) : escapeJsonChars s = s := by
  induction s with
  | nil => rfl
  | cons a t ih =>
    have ha := h a (List.mem_cons_self a t)
    have : escapeJsonChar a = [a] := by
      unfold escapeJsonChar
      rw [if_neg ha.1, if_neg ha.2]
    simp only [escapeJsonChars, List.flatMap_cons, this]
    have ht := ih (fun c hc => h c (List.mem_cons_of_mem a hc))
    simp only [escapeJsonChars] at ht
    simp [ht]

/-! ## Validity of raw tokens used to state the tolerant-boolean claim -/

/-- Characters that can occur in a JSON number literal. -/
def numChar (c : Char) : Bool :=
  c.isDigit || c = '-' || c = '+' || c = '.' || c = 'e' || c = 'E'

/-- A sanity bound on JSON number literals: nonempty, drawn from the
number-literal alphabet (a superset of the JSON number grammar). -/
def numLitSane (lit : List Char) : Bool := !lit.isEmpty && lit.all numChar

/-- String contents needing no escaping. -/
def strContentSane (s : List Char) : Bool := s.all (fun c => !(c = '"') && !(c = '\\'))

/-- Token sanity per JSON value shape. -/
def jvalTokenSane : Jval → Bool
  | .num lit => numLitSane lit
  | .str s => strContentSane s
  | _ => true

theorem numChar_no_quote {c : Char} (h : numChar c = true) : ¬(c = '"') := by
  intro hc
  subst hc
  exact absurd h (by decide)

/-- C5: decoding a JSON token as the tolerant boolean succeeds exactly on
the eight tokens `1`, `"1"`, `true`, `"true"` (logical true) and `0`,
`"0"`, `false`, `"false"` (logical false); every other token is a decode
error.  Tokens are quantified as rendered JSON values under the sanity
bound `jvalTokenSane`. -/
theorem convertibleBool_accepts_exactly_eight (v : Jval) (hs : jvalTokenSane v = true) :
    (convertibleBoolUnmarshal (renderToken v) = .ok true ↔
      (v = .num "1".toList ∨ v = .str "1".toList ∨ v = .bool true ∨ v = .str "true".toList)) ∧
    (convertibleBoolUnmarshal (renderToken v) = .ok false ↔
      (v = .num "0".toList ∨ v = .str "0".toList ∨ v = .bool false ∨ v = .str "false".toList)) ∧
    (¬((v = .num "1".toList ∨ v = .str "1".toList ∨ v = .bool true ∨ v = .str "true".toList) ∨
        (v = .num "0".toList ∨ v = .str "0".toList ∨ v = .bool false ∨ v = .str "false".toList)) →
      ∃ e, convertibleBoolUnmarshal (renderToken v) = .error e) := by
  cases v with
  | null =>
    have hr : renderToken Jval.null = "null".toList := by simp [renderToken]
    have hv : convertibleBoolUnmarshal ("null".toList) =
        .error ("boolean unmarshal error: invalid input " ++ String.mk ("null".toList)) := rfl
    rw [hr, hv]
    refine ⟨by simp, by simp, fun _ => ⟨_, rfl⟩⟩
  | bool b =>
    cases b with
    | true =>
      have hr : renderToken (Jval.bool true) = "true".toList := by simp [renderToken]
      have hv : convertibleBoolUnmarshal ("true".toList) = .ok true := rfl
      rw [hr, hv]
      refine ⟨by simp, by simp, ?_⟩
      intro h
      exact absurd (Or.inl (Or.inr (Or.inr (Or.inl rfl)))) h
    | false =>
      have hr : renderToken (Jval.bool false) = "false".toList := by simp [renderToken]
      have hv : convertibleBoolUnmarshal ("false".toList) = .ok false := rfl
      rw [hr, hv]
      refine ⟨by simp, by simp, ?_⟩
      intro h
      exact absurd (Or.inr (Or.inr (Or.inr (Or.inl rfl)))) h
  | num lit =>
    simp only [jvalTokenSane, numLitSane, Bool.and_eq_true, List.all_eq_true] at hs
    have hq : ∀ c ∈ lit, ¬(c = '"') := fun c hc => numChar_no_quote (hs.2 c hc)
    have htrim : trimQuotes lit = lit := trimQuotes_eq_self hq
    have hr : renderToken (Jval.num lit) = lit := by simp [renderToken]
    have htr : ¬(lit = "true".toList) := fun he => absurd (he ▸ hs.2) (by decide)
    have hfa : ¬(lit = "false".toList) := fun he => absurd (he ▸ hs.2) (by decide)
    rw [hr]
    unfold convertibleBoolUnmarshal
    rw [htrim]
    refine ⟨?_, ?_, ?_⟩ <;> split_ifs with h1 h2 <;>
      first
      | (simp_all; done)
      | (rcases h1 with h1 | h1 <;> subst h1 <;> simp_all)
      | (rcases h2 with h2 | h2 <;> subst h2 <;> simp_all)
      | (simp_all; rcases h1 with h1 | h1 <;> subst h1 <;> simp_all)
      | (simp_all; rcases h2 with h2 | h2 <;> subst h2 <;> simp_all)
  | str s =>
    simp only [jvalTokenSane, strContentSane, List.all_eq_true, Bool.and_eq_true,
      Bool.not_eq_eq_eq_not, Bool.not_true, decide_eq_false_iff_not] at hs
    have hesc : escapeJsonChars s = s := escapeJsonChars_eq_self hs
    have htrim : trimQuotes ('"' :: s ++ ['"']) = s :=
      trimQuotes_quoted (fun c hc => (hs c hc).1)
    have hr : renderToken (Jval.str s) = '"' :: s ++ ['"'] := by simp [renderToken, hesc]
    rw [hr]
    unfold convertibleBoolUnmarshal
    rw [htrim]
    refine ⟨?_, ?_, ?_⟩ <;> split_ifs with h1 h2 <;>
      first
      | (simp_all; done)
      | (rcases h1 with h1 | h1 <;> subst h1 <;> simp_all)
      | (rcases h2 with h2 | h2 <;> subst h2 <;> simp_all)
      | (simp_all; rcases h1 with h1 | h1 <;> subst h1 <;> simp_all)
      | (simp_all; rcases h2 with h2 | h2 <;> subst h2 <;> simp_all)
  | arr xs =>
    have hr : renderToken (Jval.arr xs) = '[' :: renderArr xs ++ [']'] := by
      simp [renderToken]
    have htrim : trimQuotes ('[' :: renderArr xs ++ [']']) = '[' :: renderArr xs ++ [']'] :=
      trimQuotes_of_ends (by decide) (by decide) _
    rw [hr]
    unfold convertibleBoolUnmarshal
    rw [htrim]
    rw [if_neg (by simp), if_neg (by simp)]
    refine ⟨by simp, by simp, fun _ => ⟨_, rfl⟩⟩
  | obj fs =>
    have hr : renderToken (Jval.obj fs) = lbrace :: renderObj fs ++ [rbrace] := by
      simp [renderToken]
    have htrim : trimQuotes (lbrace :: renderObj fs ++ [rbrace]) =
        lbrace :: renderObj fs ++ [rbrace] :=
      trimQuotes_of_ends (by decide) (by decide) _
    rw [hr]
    unfold convertibleBoolUnmarshal
    rw [htrim]
    rw [if_neg (by simp [lbrace]), if_neg (by simp [lbrace])]
    refine ⟨by simp, by simp, fun _ => ⟨_, rfl⟩⟩

/-- Witness for C5 at the token `"true"`. -/
theorem convertibleBool_accepts_exactly_eight_witness :
    jvalTokenSane (.str "true".toList) = true ∧
    convertibleBoolUnmarshal (renderToken (.str "true".toList)) = .ok true :=
  ⟨by decide,
    ((convertibleBool_accepts_exactly_eight (.str "true".toList) (by decide)).1).mpr
      (Or.inr (Or.inr (Or.inr rfl)))⟩

/-! ## Exact decimals (`shopspring/decimal`)

A decimal is a coefficient and a power-of-ten exponent; arithmetic and
comparison are exact.  `decZeroStruct` is the Go zero value of the struct,
`decimalZero` is the package constant `decimal.Zero = New(0, 1)`. -/

structure Dec where
  m : Int
  e : Int
  deriving DecidableEq, Repr

def decZeroStruct : Dec := ⟨0, 0⟩

def decimalZero : Dec := ⟨0, 1⟩

/-- Rational value of a decimal. -/
def Dec.val (d : Dec) : ℚ := (d.m : ℚ) * (10 : ℚ) ^ d.e

/-- `Decimal.Mul`: multiply coefficients, add exponents (exact). -/
def Dec.mul (a b : Dec) : Dec := ⟨a.m * b.m, a.e + b.e⟩

/-- `Decimal.Equal`: rescale to the smaller exponent and compare. -/
def Dec.equal (a b : Dec) : Bool :=
  decide (a.m * 10 ^ (a.e - min a.e b.e).toNat = b.m * 10 ^ (b.e - min a.e b.e).toNat)

theorem Dec.rescale_val (d : Dec) (emin : Int) (h : emin ≤ d.e) :
    ((d.m * 10 ^ (d.e - emin).toNat : Int) : ℚ) * (10 : ℚ) ^ emin = d.val := by
  unfold Dec.val
  push_cast
  rw [mul_assoc]
  congr 1
  rw [← zpow_natCast (10 : ℚ) (d.e - emin).toNat, Int.toNat_of_nonneg (by omega),
    ← zpow_add₀ (by norm_num : (10 : ℚ) ≠ 0)]
  congr 1
  omega

theorem Dec.equal_iff (a b : Dec) : a.equal b = true ↔ a.val = b.val := by
  have ka := Dec.rescale_val a (min a.e b.e) (min_le_left _ _)
  have kb := Dec.rescale_val b (min a.e b.e) (min_le_right _ _)
  unfold Dec.equal
  rw [decide_eq_true_iff]
  constructor
  · intro h
    rw [← ka, ← kb, h]
  · intro h
    rw [← ka, ← kb] at h
    have h10 : ((10 : ℚ) ^ min a.e b.e) ≠ 0 := zpow_ne_zero _ (by norm_num)
    have := mul_right_cancel₀ h10 h
    exact_mod_cast this

theorem Dec.val_mul (a b : Dec) : (a.mul b).val = a.val * b.val := by
  unfold Dec.mul Dec.val
  rw [zpow_add₀ (by norm_num : (10 : ℚ) ≠ 0)]
  push_cast
  ring

theorem decimalZero_val : decimalZero.val = 0 := by
  simp [decimalZero, Dec.val]

theorem decZeroStruct_val : decZeroStruct.val = 0 := by
  simp [decZeroStruct, Dec.val]

/-! ## Decimal parsing (`decimal.NewFromString`) -/

def digitsToNat (l : List Char) : Nat := l.foldl (fun a c => a * 10 + (c.toNat - 48)) 0

def allDigits (l : List Char) : Bool := !l.isEmpty && l.all Char.isDigit

/-- `big.Int.SetString` base 10: optional sign, then digits. -/
def parseSignDigits (l : List Char) : Option Int :=
  match l with
  | '+' :: rest => if allDigits rest then some (digitsToNat rest) else none
  | '-' :: rest => if allDigits rest then some (-(digitsToNat rest : Int)) else none
  | _ => if allDigits l then some (digitsToNat l) else none

/-- `strconv.ParseInt(_, 10, 64)`: signed decimal within `int64` range. -/
def parseInt64Chars (l : List Char) : Option Int :=
  (parseSignDigits l).bind
    (fun x => if -(2 ^ 63) ≤ x ∧ x < 2 ^ 63 then some x else none)

/-- Split a list at the first character satisfying `p` (excluded). -/
def splitAtFirst (p : Char → Bool) : List Char → Option (List Char × List Char)
  | [] => none
  | c :: rest =>
    if p c then some ([], rest)
    else (splitAtFirst p rest).map (fun pr => (c :: pr.1, pr.2))

/-- `decimal.NewFromString`: optional `e`/`E` exponent part parsed as
`int64`, at most one decimal point, coefficient digits handed to
`big.Int.SetString`. -/
def newFromString (l : List Char) : Option Dec :=
  let espl := splitAtFirst (fun c => c = 'e' || c = 'E') l
  let mant := match espl with | none => l | some pr => pr.1
  let exp? : Option Int := match espl with
    | none => some 0
    | some pr => parseInt64Chars pr.2
  match exp? with
  | none => none
  | some exp =>
    match splitAtFirst (fun c => c = '.') mant with
    | none => (parseSignDigits mant).map (fun m => ⟨m, exp⟩)
    | some pr =>
      if pr.2.any (fun c => c = '.') then none
      else (parseSignDigits (pr.1 ++ pr.2)).map (fun m => ⟨m, exp - pr.2.length⟩)

/-- `decimal.Decimal.UnmarshalJSON`: `null` is a no-op (zero value stays),
quoted strings are unquoted, then `NewFromString`. -/
def decodeDecimal (v : Jval) : Except String Dec :=
  match v with
  | .null => .ok decZeroStruct
  | .num lit =>
    match newFromString lit with
    | some d => .ok d
    | none => .error ("can't convert " ++ String.mk lit ++ " to decimal")
  | .str s =>
    match newFromString s with
    | some d => .ok d
    | none => .error ("can't convert " ++ String.mk s ++ " to decimal")
  | _ => .error "error decoding decimal"

/-! ## Order book entries (`Order.UnmarshalJSON`, `CalculateTotal`) -/

structure Order where
  Rate : Dec
  Amount : Dec
  Total : Dec
  deriving DecidableEq, Repr

def orderZero : Order := ⟨decZeroStruct, decZeroStruct, decZeroStruct⟩

/-- Decode a JSON value into `[2]decimal.Decimal`: must be an array,
missing elements stay zero, extra elements are discarded. -/
def decodeDecArray2 (v : Jval) : Except String (Dec × Dec) :=
  match v with
  | .arr xs =>
    match (match xs.get? 0 with | none => Except.ok decZeroStruct | some x => decodeDecimal x) with
    | .error e => .error e
    | .ok r =>
      match (match xs.get? 1 with | none => Except.ok decZeroStruct | some x => decodeDecimal x) with
      | .error e => .error e
      | .ok a => .ok (r, a)
  | _ => .error "json: cannot unmarshal into [2]decimal.Decimal"

/-- `Order.CalculateTotal`: skip when the amount equals `decimal.Zero`,
otherwise `Total = Rate.Mul(Amount)`. -/
def Order.calculateTotal (o : Order) : Order :=
  if o.Amount.equal decimalZero then o else { o with Total := o.Rate.mul o.Amount }

/-- `Order.UnmarshalJSON`: parse the two-element array, then derive the
total. -/
def orderUnmarshal (v : Jval) : Except String Order :=
  match decodeDecArray2 v with
  | .error e => .error e
  | .ok pr => .ok (Order.calculateTotal ⟨pr.1, pr.2, decZeroStruct⟩)

/-- C6: decoding a two-element numeric array `[rate, amount]` as an
`Order` yields `Rate = rate` and `Amount = amount`; for `amount ≠ 0` the
total is the exact decimal product `rate * amount` (no rounding drift),
and for `amount = 0` the total is the decimal zero. -/
theorem order_decode_total_exact (lr la : List Char) (r a : Dec)
    (hr : newFromString lr = some r) (ha : newFromString la = some a) :
    ∃ o, orderUnmarshal (.arr [.num lr, .num la]) = .ok o ∧
      o.Rate = r ∧ o.Amount = a ∧
      (a.val ≠ 0 → o.Total = r.mul a ∧ o.Total.val = r.val * a.val) ∧
      (a.val = 0 → o.Total.val = 0) := by
  have hdr : decodeDecimal (.num lr) = .ok r := by
    simp [decodeDecimal, hr]
  have hda : decodeDecimal (.num la) = .ok a := by
    simp [decodeDecimal, ha]
  have harr : decodeDecArray2 (.arr [.num lr, .num la]) = .ok (r, a) := by
    unfold decodeDecArray2
    simp [hdr, hda]
  refine ⟨Order.calculateTotal ⟨r, a, decZeroStruct⟩, ?_, ?_, ?_, ?_, ?_⟩
  · unfold orderUnmarshal
    rw [harr]
  · unfold Order.calculateTotal
    split_ifs <;> rfl
  · unfold Order.calculateTotal
    split_ifs <;> rfl
  · intro hne
    have hz : (⟨r, a, decZeroStruct⟩ : Order).Amount.equal decimalZero = false := by
      rw [Bool.eq_false_iff]
      intro hcontra
      exact hne (by simpa [decimalZero_val] using (Dec.equal_iff a decimalZero).mp hcontra)
    unfold Order.calculateTotal
    rw [hz]
    exact ⟨rfl, Dec.val_mul r a⟩
  · intro hzero
    have hz : (⟨r, a, decZeroStruct⟩ : Order).Amount.equal decimalZero = true := by
      exact (Dec.equal_iff a decimalZero).mpr (by simpa [decimalZero_val] using hzero)
    unfold Order.calculateTotal
    rw [hz]
    simpa using decZeroStruct_val

/-- Witness for C6 at `[103.426, 0.01]`: the decoded total is exactly
`1.03426`. -/
theorem order_decode_total_exact_witness :
    newFromString "103.426".toList = some ⟨103426, -3⟩ ∧
    newFromString "0.01".toList = some ⟨1, -2⟩ ∧
    ∃ o, orderUnmarshal (.arr [.num "103.426".toList, .num "0.01".toList]) = .ok o ∧
      o.Rate = ⟨103426, -3⟩ ∧ o.Amount = ⟨1, -2⟩ ∧
      ((⟨1, -2⟩ : Dec).val ≠ 0 →
        o.Total = Dec.mul ⟨103426, -3⟩ ⟨1, -2⟩ ∧
        o.Total.val = (⟨103426, -3⟩ : Dec).val * (⟨1, -2⟩ : Dec).val) ∧
      ((⟨1, -2⟩ : Dec).val = 0 → o.Total.val = 0) :=
  ⟨by decide, by decide,
    order_decode_total_exact "103.426".toList "0.01".toList ⟨103426, -3⟩ ⟨1, -2⟩
      (by decide) (by decide)⟩

/-! ## Unix timestamps (`unix_timestamp.go`)

`unixTimestamp` wraps `time.Time`; its Go zero value (the `time.Time`
zero) is distinct from `time.Unix(i, 0)` for every `i`, so the model keeps
the two apart. -/

inductive UnixTs where
  | zeroValue
  | unix (sec : Int)
  deriving DecidableEq, Repr

/-- `unixTimestamp.UnmarshalJSON`: `strconv.ParseInt(string(data), 10, 64)`
on the raw token bytes, then `time.Unix(i, 0)`. -/
def decodeUnixTs (v : Jval) : Except String UnixTs :=
  match v with
  | .num lit =>
    match parseInt64Chars lit with
    | some i => .ok (.unix i)
    | none => .error ("parsing " ++ String.mk lit ++ ": invalid syntax")
  | _ => .error "invalid syntax"

/-- `strconv.ParseUint(_, 10, 64)`: digits only, below `2^64`. -/
def parseUint64Chars (l : List Char) : Option Nat :=
  if allDigits l then
    if digitsToNat l < 2 ^ 64 then some (digitsToNat l) else none
  else none

/-! ## Generic `encoding/json` object-to-struct decoding

A struct field is fed from the last object key matching its name
(case-insensitively, as `encoding/json` matches field names); an absent
key leaves the field at its prior value; a JSON `null` is a no-op for
plain Go types. -/

def toLowerChars (l : List Char) : List Char := l.map Char.toLower

def lookupField (fs : List (List Char × Jval)) (name : List Char) : Option Jval :=
  ((fs.filter (fun f => toLowerChars f.1 = toLowerChars name)).getLast?).map Prod.snd

/-- Decode one struct field: absent key keeps `init`. -/
def decF {α} (fs : List (List Char × Jval)) (name : List Char) (init : α)
    (dec : Jval → Except String α) : Except String α :=
  match lookupField fs name with
  | none => .ok init
  | some v => dec v

/-- Plain Go `string` field (`null` is a no-op). -/
def decStrF (init : List Char) : Jval → Except String (List Char) := fun v =>
  match v with
  | .null => .ok init
  | .str s => .ok s
  | _ => .error "cannot unmarshal into string"

/-- Plain Go `uint64` field (`null` is a no-op). -/
def decUintF (init : Nat) : Jval → Except String Nat := fun v =>
  match v with
  | .null => .ok init
  | .num lit =>
    match parseUint64Chars lit with
    | some n => .ok n
    | none => .error ("cannot unmarshal number " ++ String.mk lit ++ " into uint64")
  | _ => .error "cannot unmarshal into uint64"

/-- Error-propagating map over a list, aborting at the first failure
(models a decode loop with an early `return err`). -/
def mapME {α β : Type} (f : α → Except String β) : List α → Except String (List β)
  | [] => .ok []
  | a :: as =>
    match f a with
    | .error e => .error e
    | .ok b =>
      match mapME f as with
      | .error e => .error e
      | .ok bs => .ok (b :: bs)

/-- Decode a `map[string]T` response; `null` leaves the map nil.  Lookups
use the last occurrence of a key, matching Go's overwrite-on-duplicate. -/
def stringMapStep {α : Type} (dec : Jval → Except String α) (f : List Char × Jval) :
    Except String (List Char × α) :=
  match dec f.2 with
  | .error e => .error e
  | .ok x => .ok (f.1, x)

def decodeStringMap {α : Type} (dec : Jval → Except String α) (v : Jval) :
    Except String (List (List Char × α)) :=
  match v with
  | .obj fs => mapME (stringMapStep dec) fs
  | .null => .ok []
  | _ => .error "cannot unmarshal into map"

/-- Go map indexing: last binding of the key, if any. -/
def mapLookup {α : Type} (m : List (List Char × α)) (key : List Char) : Option α :=
  ((m.filter (fun f => f.1 = key)).getLast?).map Prod.snd

/-! ## Typed payload shapes used by the claims -/

structure Market where
  High : Dec
  Low : Dec
  Average : Dec
  Volume : Dec
  VolumeInCurrency : Dec
  Last : Dec
  Buy : Dec
  Sell : Dec
  Updated : UnixTs
  deriving DecidableEq, Repr

def marketZero : Market :=
  ⟨decZeroStruct, decZeroStruct, decZeroStruct, decZeroStruct, decZeroStruct,
    decZeroStruct, decZeroStruct, decZeroStruct, .zeroValue⟩

/-- Decode a `Market` from a JSON object (tags `high`, `low`, `avg`,
`vol`, `vol_cur`, `last`, `buy`, `sell`, `updated`). -/
def decodeMarket (v : Jval) : Except String Market :=
  match v with
  | .obj fs => do
    let high ← decF fs "high".toList decZeroStruct decodeDecimal
    let low ← decF fs "low".toList decZeroStruct decodeDecimal
    let avg ← decF fs "avg".toList decZeroStruct decodeDecimal
    let vol ← decF fs "vol".toList decZeroStruct decodeDecimal
    let volCur ← decF fs "vol_cur".toList decZeroStruct decodeDecimal
    let last ← decF fs "last".toList decZeroStruct decodeDecimal
    let buy ← decF fs "buy".toList decZeroStruct decodeDecimal
    let sell ← decF fs "sell".toList decZeroStruct decodeDecimal
    let updated ← decF fs "updated".toList UnixTs.zeroValue decodeUnixTs
    return ⟨high, low, avg, vol, volCur, last, buy, sell, updated⟩
  | .null => .ok marketZero
  | _ => .error "cannot unmarshal into Market"

structure OrderBook where
  Asks : List Order
  Bids : List Order
  deriving DecidableEq, Repr

def orderBookZero : OrderBook := ⟨[], []⟩

/-- Decode a `[]Order` (a JSON `null` sets the slice to nil). -/
def decodeOrderList (v : Jval) : Except String (List Order) :=
  match v with
  | .arr xs => mapME orderUnmarshal xs
  | .null => .ok []
  | _ => .error "cannot unmarshal into order slice"

def decodeOrderBook (v : Jval) : Except String OrderBook :=
  match v with
  | .obj fs => do
    let asks ← decF fs "asks".toList [] decodeOrderList
    let bids ← decF fs "bids".toList [] decodeOrderList
    return ⟨asks, bids⟩
  | .null => .ok orderBookZero
  | _ => .error "cannot unmarshal into OrderBook"

structure Trade where
  ID : Nat
  Typ : List Char
  Rate : Dec
  Amount : Dec
  Timestamp : UnixTs
  deriving DecidableEq, Repr

def tradeZero : Trade := ⟨0, [], decZeroStruct, decZeroStruct, .zeroValue⟩

/-- Decode a `Trade` (tags `tid`, `type`, `price`, `amount`,
`timestamp`). -/
def decodeTradeItem (v : Jval) : Except String Trade :=
  match v with
  | .obj fs => do
    let id ← decF fs "tid".toList 0 (decUintF 0)
    let typ ← decF fs "type".toList [] (decStrF [])
    let rate ← decF fs "price".toList decZeroStruct decodeDecimal
    let amount ← decF fs "amount".toList decZeroStruct decodeDecimal
    let ts ← decF fs "timestamp".toList UnixTs.zeroValue decodeUnixTs
    return ⟨id, typ, rate, amount, ts⟩
  | .null => .ok tradeZero
  | _ => .error "cannot unmarshal into Trade"

def decodeTradeList (v : Jval) : Except String (List Trade) :=
  match v with
  | .arr xs => mapME decodeTradeItem xs
  | .null => .ok []
  | _ => .error "cannot unmarshal into trade slice"

/-! ## Trade orders (`TradeOrder`, `TradeOrders.UnmarshalJSON`) -/

structure TradeOrder where
  ID : Nat
  Pair : List Char
  Typ : List Char
  StartAmount : Dec
  Amount : Dec
  Rate : Dec
  TimestampCreated : UnixTs
  deriving DecidableEq, Repr

def tradeOrderZero : TradeOrder :=
  ⟨0, [], [], decZeroStruct, decZeroStruct, decZeroStruct, .zeroValue⟩

/-- `json.Unmarshal` into an existing `TradeOrder` value: present fields
overwrite, absent fields keep `init` (the untagged `ID` field matches a
JSON key `ID` case-insensitively). -/
def tradeOrderUpdate (init : TradeOrder) (v : Jval) : Except String TradeOrder :=
  match v with
  | .obj fs => do
    let id ← decF fs "ID".toList init.ID (decUintF init.ID)
    let pair ← decF fs "pair".toList init.Pair (decStrF init.Pair)
    let typ ← decF fs "type".toList init.Typ (decStrF init.Typ)
    let sa ← decF fs "start_amount".toList init.StartAmount decodeDecimal
    let am ← decF fs "amount".toList init.Amount decodeDecimal
    let rt ← decF fs "rate".toList init.Rate decodeDecimal
    let ts ← decF fs "timestamp_created".toList init.TimestampCreated decodeUnixTs
    return ⟨id, pair, typ, sa, am, rt, ts⟩
  | .null => .ok init
  | _ => .error "cannot unmarshal into TradeOrder"

/-- `TradeOrders.UnmarshalJSON`: unmarshal into `map[string]RawMessage`,
parse each key as a `uint64` ID, seed the record with it, then unmarshal
the nested object into that record; the first failure aborts the whole
decode. -/
def tradeOrdersStep (f : List Char × Jval) : Except String TradeOrder :=
  match parseUint64Chars f.1 with
  | none => .error ("parse id " ++ String.mk f.1 ++ ": invalid syntax")
  | some id =>
    match tradeOrderUpdate { tradeOrderZero with ID := id } f.2 with
    | .error e => .error ("unmarshal trade order " ++ String.mk f.1 ++ ": " ++ e)
    | .ok t => .ok t

def tradeOrdersUnmarshal (v : Jval) : Except String (List TradeOrder) :=
  match v with
  | .obj fs => mapME tradeOrdersStep fs
  | .null => .ok []
  | _ => .error "unmarshal to id raw"

/-! ## Response envelope and the two request pipelines -/

structure BaseResponse where
  success : Bool
  err : Option (List Char)
  ret : Option Jval

/-- Decode the generic envelope `{success, error, return}`:
`success` goes through the tolerant boolean on its raw token bytes,
`error` is an optional string pointer, `return` is kept raw. -/
def baseResponseDecode (v : Jval) : Except String BaseResponse :=
  match v with
  | .obj fs =>
    match (match lookupField fs "success".toList with
           | none => Except.ok false
           | some sv => convertibleBoolUnmarshal (renderToken sv)) with
    | .error e => .error e
    | .ok success =>
      match (match lookupField fs "error".toList with
             | none => Except.ok (Option.none)
             | some .null => Except.ok (Option.none)
             | some (.str s) => Except.ok (some s)
             | some _ => Except.error "cannot unmarshal into string pointer") with
      | .error e => .error e
      | .ok er => .ok ⟨success, er, lookupField fs "return".toList⟩
  | .null => .ok ⟨false, none, none⟩
  | _ => .error "cannot unmarshal into baseResponse"

/-- An HTTP response as seen after the transport: a status code, and the
body after running it through the JSON parser (`.error d` models a body
that is not valid JSON, with the parser's message). -/
structure HttpResponse where
  status : Nat
  body : Except String Jval

/-- The response phase of `publicRequest`: non-200 short-circuits, then
the envelope is decoded; a falsy `success` with a present `error` message
fails verbatim; otherwise the whole body is decoded as the result. -/
def publicRequestR {α : Type} (resp : HttpResponse) (dec : Jval → Except String α) :
    Except ReqError α :=
  if resp.status ≠ 200 then .error (.statusCode resp.status)
  else
    match resp.body with
    | .error d => .error (.unmarshalBase d)
    | .ok jv =>
      match baseResponseDecode jv with
      | .error d => .error (.unmarshalBase d)
      | .ok br =>
        match br.success, br.err with
        | false, some m => .error (.respondError (String.mk m))
        | _, _ =>
          match dec jv with
          | .error d => .error (.unmarshalResult d)
          | .ok a => .ok a

/-- The response phase of `tradeRequest`: as `publicRequest`, except the
result is decoded from the envelope's `return` field (absent `return`
makes phase two fail on empty input). -/
def tradeRequestR {α : Type} (resp : HttpResponse) (dec : Jval → Except String α) :
    Except ReqError α :=
  if resp.status ≠ 200 then .error (.statusCode resp.status)
  else
    match resp.body with
    | .error d => .error (.unmarshalBase d)
    | .ok jv =>
      match baseResponseDecode jv with
      | .error d => .error (.unmarshalBase d)
      | .ok br =>
        match br.success, br.err with
        | false, some m => .error (.respondError (String.mk m))
        | _, _ =>
          match br.ret with
          | none => .error (.unmarshalResult "unexpected end of JSON input")
          | some rv =>
            match dec rv with
            | .error d => .error (.unmarshalResult d)
            | .ok a => .ok a

/-! ## Per-pair public operations

Each decodes a `map[string]T` response and indexes it at the requested
pair (zero value for a missing key).  On a pipeline error the Go code
returns whatever partially-decoded map entry indexing produces — the
claims only concern the error-free path, so the model returns the zero
record alongside the error. -/

def tickerR (resp : HttpResponse) (pair : List Char) : Market × Option ReqError :=
  match publicRequestR resp (decodeStringMap decodeMarket) with
  | .ok m => ((mapLookup m pair).getD marketZero, none)
  | .error e => (marketZero, some e)

def depthR (resp : HttpResponse) (pair : List Char) : OrderBook × Option ReqError :=
  match publicRequestR resp (decodeStringMap decodeOrderBook) with
  | .ok m => ((mapLookup m pair).getD orderBookZero, none)
  | .error e => (orderBookZero, some e)

def tradesR (resp : HttpResponse) (pair : List Char) : List Trade × Option ReqError :=
  match publicRequestR resp (decodeStringMap decodeTradeList) with
  | .ok m => ((mapLookup m pair).getD [], none)
  | .error e => ([], some e)

/-! ## `OrderInfo` -/

/-- `strconv.FormatUint(orderID, 10)`. -/
def formatUint (n : Nat) : List Char := (toString n).toList

/-- The local `trade` variable of `OrderInfo`: the map entry with the
requested ID written into its `ID` field — computed and then discarded by
the source. -/
def orderInfoLocalTrade (m : List (List Char × TradeOrder)) (orderID : Nat) : TradeOrder :=
  { (mapLookup m (formatUint orderID)).getD tradeOrderZero with ID := orderID }

/-- `OrderInfo`: decode `map[string]TradeOrder` from the `return` field
and return the entry at the requested ID — the unmodified map entry, not
the local copy with the injected ID. -/
def orderInfoR (resp : HttpResponse) (orderID : Nat) : TradeOrder × Option ReqError :=
  match tradeRequestR resp (decodeStringMap (tradeOrderUpdate tradeOrderZero)) with
  | .ok m => ((mapLookup m (formatUint orderID)).getD tradeOrderZero, none)
  | .error e => (tradeOrderZero, some e)

/-! ## Generic lemmas about `Except` and `mapME` -/

theorem exceptBind_ok {α β : Type} {x : Except String α} {f : α → Except String β} {b : β}
    (h : (x >>= f) = .ok b) : ∃ a, x = .ok a ∧ f a = .ok b := by
  cases x with
  | ok a => exact ⟨a, rfl, h⟩
  | error e =>
    have : (Except.error e >>= f) = (Except.error e : Except String β) := rfl
    rw [this] at h
    exact absurd h (by simp)

theorem mem_of_getLast?_eq {α : Type} {l : List α} {a : α} (h : l.getLast? = some a) :
    a ∈ l := by
  obtain ⟨hne, heq⟩ :=
    List.mem_getLast?_eq_getLast (show a ∈ l.getLast? from by rw [Option.mem_def, h])
  rw [heq]
  exact List.getLast_mem hne

theorem mapME_ok_length {α β : Type} {f : α → Except String β} :
    ∀ {l : List α} {L : List β}, mapME f l = .ok L → L.length = l.length := by
  intro l
  induction l with
  | nil =>
    intro L h
    simp only [mapME, Except.ok.injEq] at h
    subst h
    rfl
  | cons a as ih =>
    intro L h
    simp only [mapME] at h
    cases hfa : f a with
    | error e => rw [hfa] at h; exact absurd h (by simp)
    | ok b =>
      rw [hfa] at h
      cases hrec : mapME f as with
      | error e => rw [hrec] at h; exact absurd h (by simp)
      | ok bs =>
        rw [hrec] at h
        simp only [Except.ok.injEq] at h
        subst h
        simp [ih hrec]

theorem mapME_ok_get {α β : Type} {f : α → Except String β} :
    ∀ {l : List α} {L : List β}, mapME f l = .ok L →
      ∀ i (hi : i < l.length) (hi2 : i < L.length),
        f (l.get ⟨i, hi⟩) = .ok (L.get ⟨i, hi2⟩) := by
  intro l
  induction l with
  | nil => intro L h i hi hi2; exact absurd hi (by simp)
  | cons a as ih =>
    intro L h i hi hi2
    simp only [mapME] at h
    cases hfa : f a with
    | error e => rw [hfa] at h; exact absurd h (by simp)
    | ok b =>
      rw [hfa] at h
      cases hrec : mapME f as with
      | error e => rw [hrec] at h; exact absurd h (by simp)
      | ok bs =>
        rw [hrec] at h
        simp only [Except.ok.injEq] at h
        subst h
        cases i with
        | zero => simpa using hfa
        | succ j =>
          have hj : j < as.length := by simpa using hi
          have hj2 : j < bs.length := by simpa using hi2
          simpa using ih hrec j hj hj2

theorem mapME_ok_mem {α β : Type} {f : α → Except String β} :
    ∀ {l : List α} {L : List β} {b : β}, mapME f l = .ok L → b ∈ L →
      ∃ a ∈ l, f a = .ok b := by
  intro l
  induction l with
  | nil =>
    intro L b h hb
    simp only [mapME, Except.ok.injEq] at h
    subst h
    exact absurd hb (by simp)
  | cons a as ih =>
    intro L b h hb
    simp only [mapME] at h
    cases hfa : f a with
    | error e => rw [hfa] at h; exact absurd h (by simp)
    | ok b0 =>
      rw [hfa] at h
      cases hrec : mapME f as with
      | error e => rw [hrec] at h; exact absurd h (by simp)
      | ok bs =>
        rw [hrec] at h
        simp only [Except.ok.injEq] at h
        subst h
        rcases List.mem_cons.mp hb with hb | hb
        · exact ⟨a, List.mem_cons_self a as, by rw [hfa, hb]⟩
        · obtain ⟨a2, ha2, hfa2⟩ := ih hrec hb
          exact ⟨a2, List.mem_cons_of_mem a ha2, hfa2⟩

theorem mapME_error_of_mem {α β : Type} {f : α → Except String β} :
    ∀ {l : List α} {a : α} {e : String}, a ∈ l → f a = .error e →
      ∃ e2, mapME f l = .error e2 := by
  intro l
  induction l with
  | nil => intro a e ha _; exact absurd ha (by simp)
  | cons x xs ih =>
    intro a e ha hfa
    rcases List.mem_cons.mp ha with h | h
    · subst h
      exact ⟨e, by simp only [mapME]; rw [hfa]⟩
    · cases hfx : f x with
      | error e2 => exact ⟨e2, by simp only [mapME]; rw [hfx]⟩
      | ok b =>
        obtain ⟨e2, he2⟩ := ih h hfa
        exact ⟨e2, by simp only [mapME]; rw [hfx, he2]⟩

theorem mapME_ok_of_forall {α β : Type} {f : α → Except String β} :
    ∀ {l : List α}, (∀ a ∈ l, ∃ b, f a = .ok b) → ∃ L, mapME f l = .ok L := by
  intro l
  induction l with
  | nil => intro _; exact ⟨[], rfl⟩
  | cons a as ih =>
    intro h
    obtain ⟨b, hb⟩ := h a (List.mem_cons_self a as)
    obtain ⟨L, hL⟩ := ih (fun x hx => h x (List.mem_cons_of_mem a hx))
    exact ⟨b :: L, by simp only [mapME]; rw [hb, hL]⟩

/-! ## C8: non-200 responses -/

/-- C8: a non-200 status makes both `publicRequest` and `tradeRequest`
fail with exactly `server respond with status code <code>`, independently
of the body — no JSON parsing of the body is attempted. -/
theorem non200_status_short_circuits (resp : HttpResponse) (α : Type)
    (dec : Jval → Except String α) (h : resp.status ≠ 200) :
    publicRequestR resp dec = .error (.statusCode resp.status) ∧
    tradeRequestR resp dec = .error (.statusCode resp.status) ∧
    (∀ body2, publicRequestR ⟨resp.status, body2⟩ dec = publicRequestR resp dec) ∧
    (∀ body2, tradeRequestR ⟨resp.status, body2⟩ dec = tradeRequestR resp dec) ∧
    (ReqError.statusCode resp.status).render =
      "server respond with status code " ++ toString resp.status := by
  refine ⟨?_, ?_, ?_, ?_, rfl⟩
  · unfold publicRequestR
    rw [if_pos h]
  · unfold tradeRequestR
    rw [if_pos h]
  · intro b2
    unfold publicRequestR
    rw [if_pos h, if_pos h]
  · intro b2
    unfold tradeRequestR
    rw [if_pos h, if_pos h]

/-- Witness for C8 at status 500. -/
theorem non200_status_short_circuits_witness :
    publicRequestR ⟨500, .ok .null⟩ (fun v => Except.ok v) = .error (.statusCode 500) ∧
    (ReqError.statusCode 500).render = "server respond with status code 500" :=
  ⟨(non200_status_short_circuits ⟨500, .ok .null⟩ Jval (fun v => Except.ok v)
      (by decide)).1,
    (non200_status_short_circuits ⟨500, .ok .null⟩ Jval (fun v => Except.ok v)
      (by decide)).2.2.2.2⟩

/-! ## C4: envelope application errors, and the two decode phases -/

/-- C4: a 200 response whose envelope decodes with falsy `success` and a
present `error` message `m` makes both pipelines fail with exactly
`server respond with error: <m>` (message verbatim); a body that fails the
envelope parse is tagged `unmarshal to base response`, a constructor
distinct from the payload-phase tag `unmarshal to result`. -/
theorem envelope_error_verbatim_and_phase_tags :
    (∀ (resp : HttpResponse) (jv : Jval) (br : BaseResponse) (m : List Char)
        (α : Type) (dec : Jval → Except String α),
      resp.status = 200 → resp.body = .ok jv → baseResponseDecode jv = .ok br →
      br.success = false → br.err = some m →
      publicRequestR resp dec = .error (.respondError (String.mk m)) ∧
      tradeRequestR resp dec = .error (.respondError (String.mk m)) ∧
      (ReqError.respondError (String.mk m)).render =
        "server respond with error: " ++ String.mk m) ∧
    (∀ (resp : HttpResponse) (d : String) (α : Type) (dec : Jval → Except String α),
      resp.status = 200 → resp.body = .error d →
      publicRequestR resp dec = .error (.unmarshalBase d) ∧
      tradeRequestR resp dec = .error (.unmarshalBase d) ∧
      (∀ d2, ReqError.unmarshalBase d ≠ ReqError.unmarshalResult d2)) := by
  constructor
  · intro resp jv br m α dec hst hb hbr hsuc herr
    have h200 : ¬(resp.status ≠ 200) := by rw [hst]; simp
    refine ⟨?_, ?_, rfl⟩
    · simp only [publicRequestR, if_neg h200, hb, hbr, hsuc, herr]
    · simp only [tradeRequestR, if_neg h200, hb, hbr, hsuc, herr]
  · intro resp d α dec hst hb
    have h200 : ¬(resp.status ≠ 200) := by rw [hst]; simp
    refine ⟨?_, ?_, ?_⟩
    · simp only [publicRequestR, if_neg h200, hb]
    · simp only [tradeRequestR, if_neg h200, hb]
    · intro d2 hcontra
      cases hcontra

/-- Witness for C4 at the envelope
`{"success":0, "error":"Invalid method"}` and at the malformed body `/`. -/
theorem envelope_error_verbatim_and_phase_tags_witness :
    publicRequestR
        ⟨200, .ok (.obj [("success".toList, .num "0".toList),
          ("error".toList, .str "Invalid method".toList)])⟩
        (fun v => Except.ok v) =
      .error (.respondError (String.mk "Invalid method".toList)) ∧
    (ReqError.respondError (String.mk "Invalid method".toList)).render =
      "server respond with error: " ++ String.mk "Invalid method".toList ∧
    publicRequestR ⟨200, .error "invalid character '/' looking for beginning of value"⟩
        (fun v => Except.ok v) =
      .error (.unmarshalBase "invalid character '/' looking for beginning of value") := by
  have h1 := envelope_error_verbatim_and_phase_tags.1
    ⟨200, .ok (.obj [("success".toList, .num "0".toList),
      ("error".toList, .str "Invalid method".toList)])⟩
    (.obj [("success".toList, .num "0".toList),
      ("error".toList, .str "Invalid method".toList)])
    ⟨false, some "Invalid method".toList, none⟩
    "Invalid method".toList Jval (fun v => Except.ok v) rfl rfl rfl rfl rfl
  have h2 := envelope_error_verbatim_and_phase_tags.2
    ⟨200, .error "invalid character '/' looking for beginning of value"⟩
    "invalid character '/' looking for beginning of value" Jval (fun v => Except.ok v)
    rfl rfl
  exact ⟨h1.1, h1.2.2, h2.1⟩

/-! ## C9: missing pair key yields the zero record -/

/-- C9: when a per-pair public operation decodes successfully but the map
lacks the requested pair, the operation returns the zero-valued record
with no error (`Ticker`, `Depth`, `Trades`). -/
theorem public_missing_pair_zero_record :
    (∀ resp pair m, publicRequestR resp (decodeStringMap decodeMarket) = .ok m →
      mapLookup m pair = none → tickerR resp pair = (marketZero, none)) ∧
    (∀ resp pair m, publicRequestR resp (decodeStringMap decodeOrderBook) = .ok m →
      mapLookup m pair = none → depthR resp pair = (orderBookZero, none)) ∧
    (∀ resp pair m, publicRequestR resp (decodeStringMap decodeTradeList) = .ok m →
      mapLookup m pair = none → tradesR resp pair = ([], none)) := by
  refine ⟨?_, ?_, ?_⟩ <;>
    (intro resp pair m hm hlk
     simp only [tickerR, depthR, tradesR, hm, hlk, Option.getD_none])

/-- Witness for C9: the map holds only `btc_usd`, the caller asks for
`ltc_usd`. -/
theorem public_missing_pair_zero_record_witness :
    tickerR ⟨200, .ok (.obj [("btc_usd".toList, .obj [])])⟩ "ltc_usd".toList =
      (marketZero, none) ∧
    depthR ⟨200, .ok (.obj [("btc_usd".toList, .obj [])])⟩ "ltc_usd".toList =
      (orderBookZero, none) ∧
    tradesR ⟨200, .ok (.obj [("btc_usd".toList, .arr [])])⟩ "ltc_usd".toList =
      ([], none) :=
  ⟨public_missing_pair_zero_record.1 ⟨200, .ok (.obj [("btc_usd".toList, .obj [])])⟩
      "ltc_usd".toList [("btc_usd".toList, marketZero)] rfl rfl,
    public_missing_pair_zero_record.2.1 ⟨200, .ok (.obj [("btc_usd".toList, .obj [])])⟩
      "ltc_usd".toList [("btc_usd".toList, orderBookZero)] rfl rfl,
    public_missing_pair_zero_record.2.2 ⟨200, .ok (.obj [("btc_usd".toList, .arr [])])⟩
      "ltc_usd".toList [("btc_usd".toList, [])] rfl rfl⟩

/-! ## C7: ID-keyed collection decode -/

/-- Does a JSON value (as an object) carry a key that `encoding/json`
would match to the untagged `ID` field? -/
def objHasIdKey : Jval → Bool
  | .obj fs => fs.any (fun f => toLowerChars f.1 = "id".toList)
  | _ => false

theorem except_ok_bind {α β : Type} (a : α) (f : α → Except String β) :
    (Except.ok a >>= f) = f a := rfl

theorem tradeOrderUpdate_id {init : TradeOrder} {v : Jval} {t : TradeOrder}
    (hnoid : objHasIdKey v = false) (h : tradeOrderUpdate init v = .ok t) :
    t.ID = init.ID := by
  cases v with
  | obj fs =>
    have hany : ∀ f ∈ fs, ¬(toLowerChars f.1 = "id".toList) := by
      intro f hf
      simp only [objHasIdKey, List.any_eq_false, decide_eq_true_eq] at hnoid
      exact hnoid f hf
    have hnone : lookupField fs "ID".toList = none := by
      unfold lookupField
      have hfil : fs.filter (fun f => toLowerChars f.1 = toLowerChars "ID".toList) = [] := by
        rw [List.filter_eq_nil_iff]
        intro f hf
        simp only [decide_eq_true_eq]
        have hid : toLowerChars "ID".toList = "id".toList := by decide
        rw [hid]
        exact hany f hf
      rw [hfil]
      rfl
    have hid : decF fs "ID".toList init.ID (decUintF init.ID) = .ok init.ID := by
      unfold decF
      rw [hnone]
    simp only [tradeOrderUpdate] at h
    rw [hid, except_ok_bind] at h
    obtain ⟨pair, hp, h⟩ := exceptBind_ok h
    obtain ⟨typ, hty, h⟩ := exceptBind_ok h
    obtain ⟨sa, hsa, h⟩ := exceptBind_ok h
    obtain ⟨am, ham, h⟩ := exceptBind_ok h
    obtain ⟨rt2, hrt, h⟩ := exceptBind_ok h
    obtain ⟨ts, hts, h⟩ := exceptBind_ok h
    simp only [pure, Except.pure, Except.ok.injEq] at h
    rw [← h]
  | null =>
    simp only [tradeOrderUpdate, Except.ok.injEq] at h
    rw [← h]
  | bool b => exact absurd h (by simp [tradeOrderUpdate])
  | num lit => exact absurd h (by simp [tradeOrderUpdate])
  | str s => exact absurd h (by simp [tradeOrderUpdate])
  | arr xs => exact absurd h (by simp [tradeOrderUpdate])

/-- C7: decoding an ID-keyed JSON object as a `TradeOrders` collection
yields one record per key, each carrying the ID parsed from its key as an
unsigned decimal integer alongside the fields decoded from the nested
object; if any key fails to parse as an unsigned integer the whole decode
fails. -/
theorem tradeOrders_decode_per_key (fs : List (List Char × Jval)) :
    ((∃ f ∈ fs, parseUint64Chars f.1 = none) →
      ∃ e, tradeOrdersUnmarshal (.obj fs) = .error e) ∧
    ((∀ f ∈ fs, ∃ id rec, parseUint64Chars f.1 = some id ∧
        tradeOrderUpdate { tradeOrderZero with ID := id } f.2 = .ok rec) →
      ∃ L, tradeOrdersUnmarshal (.obj fs) = .ok L ∧ L.length = fs.length ∧
        ∀ i (hi : i < fs.length) (hi2 : i < L.length),
          ∃ id, parseUint64Chars (fs.get ⟨i, hi⟩).1 = some id ∧
            tradeOrderUpdate { tradeOrderZero with ID := id } (fs.get ⟨i, hi⟩).2 =
              .ok (L.get ⟨i, hi2⟩) ∧
            (objHasIdKey (fs.get ⟨i, hi⟩).2 = false → (L.get ⟨i, hi2⟩).ID = id)) := by
  constructor
  · intro ⟨f, hf, hparse⟩
    have hstep : tradeOrdersStep f =
        .error ("parse id " ++ String.mk f.1 ++ ": invalid syntax") := by
      simp only [tradeOrdersStep, hparse]
    obtain ⟨e2, he2⟩ := mapME_error_of_mem hf hstep
    exact ⟨e2, by simp only [tradeOrdersUnmarshal]; exact he2⟩
  · intro hall
    obtain ⟨L, hL⟩ := mapME_ok_of_forall (f := tradeOrdersStep) (l := fs)
      (by
        intro f hf
        obtain ⟨id, rec, hpid, hrec⟩ := hall f hf
        exact ⟨rec, by simp only [tradeOrdersStep, hpid, hrec]⟩)
    refine ⟨L, by simp only [tradeOrdersUnmarshal]; exact hL, mapME_ok_length hL, ?_⟩
    intro i hi hi2
    have hstep := mapME_ok_get hL i hi hi2
    obtain ⟨id, rec, hpid, hrec⟩ := hall (fs.get ⟨i, hi⟩) (fs.get_mem _ _)
    simp only [tradeOrdersStep, hpid, hrec, Except.ok.injEq] at hstep
    refine ⟨id, hpid, ?_, ?_⟩
    · exact hstep ▸ hrec
    · intro hnoid
      rw [← hstep]
      have := tradeOrderUpdate_id hnoid hrec
      simpa using this

/-- Witness for C7 at `{"343152": {"pair": "btc_usd"}}`. -/
theorem tradeOrders_decode_per_key_witness :
    (∀ f ∈ [("343152".toList, Jval.obj [("pair".toList, Jval.str "btc_usd".toList)])],
      ∃ id rec, parseUint64Chars f.1 = some id ∧
        tradeOrderUpdate { tradeOrderZero with ID := id } f.2 = .ok rec) ∧
    ∃ L, tradeOrdersUnmarshal
          (.obj [("343152".toList, Jval.obj [("pair".toList, Jval.str "btc_usd".toList)])]) =
        .ok L ∧
      L.length = 1 ∧
      ∀ i (hi : i < ([("343152".toList,
            Jval.obj [("pair".toList, Jval.str "btc_usd".toList)])]).length)
        (hi2 : i < L.length),
        ∃ id, parseUint64Chars
            (([("343152".toList,
              Jval.obj [("pair".toList, Jval.str "btc_usd".toList)])]).get ⟨i, hi⟩).1 =
              some id ∧
          tradeOrderUpdate { tradeOrderZero with ID := id }
              (([("343152".toList,
                Jval.obj [("pair".toList, Jval.str "btc_usd".toList)])]).get ⟨i, hi⟩).2 =
            .ok (L.get ⟨i, hi2⟩) ∧
          (objHasIdKey
              (([("343152".toList,
                Jval.obj [("pair".toList, Jval.str "btc_usd".toList)])]).get ⟨i, hi⟩).2 =
                false →
            (L.get ⟨i, hi2⟩).ID = id) := by
  have hall : ∀ f ∈ [("343152".toList, Jval.obj [("pair".toList, Jval.str "btc_usd".toList)])],
      ∃ id rec, parseUint64Chars f.1 = some id ∧
        tradeOrderUpdate { tradeOrderZero with ID := id } f.2 = .ok rec := by
    intro f hf
    rw [List.mem_singleton] at hf
    subst hf
    exact ⟨343152, { tradeOrderZero with ID := 343152, Pair := "btc_usd".toList }, rfl, rfl⟩
  exact ⟨hall, (tradeOrders_decode_per_key _).2 hall⟩

/-! ## C10: `OrderInfo` discards the injected ID -/

/-- All records of a `return` object are free of an `ID`-matching key. -/
def retObjsNoIdKey : Jval → Bool
  | .obj fs => fs.all (fun f => !objHasIdKey f.2)
  | _ => true

theorem tradeRequestR_ok_inv {α : Type} {resp : HttpResponse}
    {dec : Jval → Except String α} {a : α} (h : tradeRequestR resp dec = .ok a) :
    ∃ jv br rv, resp.body = .ok jv ∧ baseResponseDecode jv = .ok br ∧
      br.ret = some rv ∧ dec rv = .ok a := by
  unfold tradeRequestR at h
  split at h
  · exact absurd h (by simp)
  · split at h
    · exact absurd h (by simp)
    · rename_i jv heq
      split at h
      · exact absurd h (by simp)
      · rename_i br heq2
        split at h
        · exact absurd h (by simp)
        · split at h
          · exact absurd h (by simp)
          · rename_i rv heq3
            split at h
            · exact absurd h (by simp)
            · rename_i b heq4
              injection h with h
              subst h
              exact ⟨jv, br, rv, heq, heq2, heq3, heq4⟩

/-- C10: a successful `OrderInfo(orderID)` call returns the unmodified
map entry — whose `ID` field is 0, not the requested `orderID` — because
the method assigns `orderID` only to a discarded local copy
(`orderInfoLocalTrade`). -/
theorem orderInfo_discards_injected_id (resp : HttpResponse) (orderID : Nat)
    (m : List (List Char × TradeOrder))
    (hok : tradeRequestR resp (decodeStringMap (tradeOrderUpdate tradeOrderZero)) = .ok m)
    (hnoid : ∀ jv br rv, resp.body = .ok jv → baseResponseDecode jv = .ok br →
      br.ret = some rv → retObjsNoIdKey rv = true) :
    orderInfoR resp orderID = ((mapLookup m (formatUint orderID)).getD tradeOrderZero, none) ∧
    (orderInfoR resp orderID).1.ID = 0 ∧
    (orderID ≠ 0 → (orderInfoR resp orderID).1.ID ≠ orderID) ∧
    orderInfoLocalTrade m orderID = { (orderInfoR resp orderID).1 with ID := orderID } := by
  have hmain : orderInfoR resp orderID =
      ((mapLookup m (formatUint orderID)).getD tradeOrderZero, none) := by
    simp only [orderInfoR, hok]
  have hIDs : ∀ p ∈ m, p.2.ID = 0 := by
    intro p hp
    obtain ⟨jv, br, rv, hb, hbr, hret, hdec⟩ := tradeRequestR_ok_inv hok
    have hrv := hnoid jv br rv hb hbr hret
    cases rv with
    | obj fs =>
      simp only [decodeStringMap] at hdec
      obtain ⟨f, hf, hstep⟩ := mapME_ok_mem hdec hp
      simp only [stringMapStep] at hstep
      cases hupd : tradeOrderUpdate tradeOrderZero f.2 with
      | error e => rw [hupd] at hstep; exact absurd hstep (by simp)
      | ok x =>
        rw [hupd] at hstep
        simp only [Except.ok.injEq] at hstep
        have hfno : objHasIdKey f.2 = false := by
          simp only [retObjsNoIdKey, List.all_eq_true, Bool.not_eq_eq_eq_not,
            Bool.not_true] at hrv
          exact hrv f hf
        have hx := tradeOrderUpdate_id hfno hupd
        rw [← hstep]
        simpa using hx
    | null =>
      simp only [decodeStringMap, Except.ok.injEq] at hdec
      rw [← hdec] at hp
      exact absurd hp (by simp)
    | bool b => exact absurd hdec (by simp [decodeStringMap])
    | num lit => exact absurd hdec (by simp [decodeStringMap])
    | str s => exact absurd hdec (by simp [decodeStringMap])
    | arr xs => exact absurd hdec (by simp [decodeStringMap])
  have hID0 : (orderInfoR resp orderID).1.ID = 0 := by
    rw [hmain]
    cases hlk : mapLookup m (formatUint orderID) with
    | none => rfl
    | some t =>
      have ht : t.ID = 0 := by
        unfold mapLookup at hlk
        obtain ⟨p, hgl, hpt⟩ := Option.map_eq_some'.mp hlk
        have hmem : p ∈ m := List.mem_of_mem_filter (mem_of_getLast?_eq hgl)
        rw [← hpt]
        exact hIDs p hmem
      simpa using ht
  refine ⟨hmain, hID0, ?_, ?_⟩
  · intro hne
    rw [hID0]
    omega
  · unfold orderInfoLocalTrade
    rw [hmain]

/-- Witness for C10 at the `orderInfoResponse` payload
`{"success":1,"return":{"343152":{"pair":"btc_usd"}}}` and order ID
`343152`: the returned record keeps `ID = 0`. -/
theorem orderInfo_discards_injected_id_witness :
    orderInfoR
        ⟨200, .ok (.obj [("success".toList, .num "1".toList),
          ("return".toList, .obj [("343152".toList,
            .obj [("pair".toList, .str "btc_usd".toList)])])])⟩
        343152 =
      ((mapLookup [("343152".toList, { tradeOrderZero with Pair := "btc_usd".toList })]
          (formatUint 343152)).getD tradeOrderZero, none) ∧
    (orderInfoR
        ⟨200, .ok (.obj [("success".toList, .num "1".toList),
          ("return".toList, .obj [("343152".toList,
            .obj [("pair".toList, .str "btc_usd".toList)])])])⟩
        343152).1.ID = 0 := by
  have h := orderInfo_discards_injected_id
    ⟨200, .ok (.obj [("success".toList, .num "1".toList),
      ("return".toList, .obj [("343152".toList,
        .obj [("pair".toList, .str "btc_usd".toList)])])])⟩
    343152
    [("343152".toList, { tradeOrderZero with Pair := "btc_usd".toList })]
    rfl
    (by
      intro jv br rv h1 h2 h3
      injection h1 with h1
      subst h1
      rw [show baseResponseDecode
          (.obj [("success".toList, .num "1".toList),
            ("return".toList, .obj [("343152".toList,
              .obj [("pair".toList, .str "btc_usd".toList)])])]) =
          .ok ⟨true, none, some (.obj [("343152".toList,
            .obj [("pair".toList, .str "btc_usd".toList)])])⟩ from rfl] at h2
      injection h2 with h2
      subst h2
      simp only [] at h3
      injection h3 with h3
      subst h3
      rfl)
  exact ⟨h.1, h.2.1⟩

/-! ## C3: the request signer (`tradeRequest`)

`tradeRequest` form-encodes `{method, nonce, ...params}` with
`url.Values.Encode` (keys sorted, values percent-encoded), transmits those
bytes as the POST body, and sets the `Sign` header to the hex-encoded
HMAC-SHA512 (keyed by the secret) of exactly the same bytes.  Byte strings
are `List Nat` with each byte below 256. -/

def bytesValid (l : List Nat) : Prop := ∀ b ∈ l, b < 256

def strToBytes (s : String) : List Nat := s.toList.map Char.toNat

/-! ### Percent-encoding (`url.QueryEscape`) -/

/-- Bytes `url.QueryEscape` leaves as-is: alphanumerics and `-_.~`. -/
def isUnreservedGo (b : Nat) : Bool :=
  (48 ≤ b && b ≤ 57) || (65 ≤ b && b ≤ 90) || (97 ≤ b && b ≤ 122) ||
    b = 45 || b = 46 || b = 95 || b = 126

def upperHexDigit (n : Nat) : Nat := if n < 10 then 48 + n else 55 + n

/-- One byte of `url.QueryEscape`: space becomes `+`, unreserved bytes
stay, everything else is `%XX` with uppercase hex. -/
def queryEscapeByte (b : Nat) : List Nat :=
  if b = 32 then [43]
  else if isUnreservedGo b then [b]
  else [37, upperHexDigit (b / 16), upperHexDigit (b % 16)]

def queryEscape (l : List Nat) : List Nat := l.flatMap queryEscapeByte

def hexVal (c : Nat) : Nat :=
  if 48 ≤ c && c ≤ 57 then c - 48 else if 65 ≤ c && c ≤ 70 then c - 55 else 0

/-- Decoder for `queryEscape` output (left inverse, used for
injectivity). -/
def queryUnescape : List Nat → List Nat
  | 37 :: h1 :: h2 :: rest2 => (hexVal h1 * 16 + hexVal h2) :: queryUnescape rest2
  | 43 :: rest => 32 :: queryUnescape rest
  | c :: rest => c :: queryUnescape rest
  | [] => []

/-! ### `url.Values.Encode`: sorted keys, per-key values in order -/

def bytesLe : List Nat → List Nat → Bool
  | [], _ => true
  | _ :: _, [] => false
  | a :: as, b :: bs => if a < b then true else if a = b then bytesLe as bs else false

def insertKeySorted (k : List Nat) : List (List Nat) → List (List Nat)
  | [] => [k]
  | a :: as => if bytesLe k a then k :: a :: as else a :: insertKeySorted k as

def sortKeys (l : List (List Nat)) : List (List Nat) := l.foldr insertKeySorted []

/-- Values stored under key `k`, in insertion order (`url.Values.Add`). -/
def valuesOf (k : List Nat) (entries : List (List Nat × List Nat)) : List (List Nat) :=
  (entries.filter (fun e => e.1 = k)).map Prod.snd

/-- One `key=value` segment of the encoded form. -/
def pairSegment (k v : List Nat) : List Nat := queryEscape k ++ 61 :: queryEscape v

/-- Join with a separator byte (`&` = 38, `=` = 61). -/
def joinSep (sep : Nat) : List (List Nat) → List Nat
  | [] => []
  | [x] => x
  | x :: y :: rest => x ++ sep :: joinSep sep (y :: rest)

def encodeSegments (entries : List (List Nat × List Nat)) : List (List Nat) :=
  (sortKeys ((entries.map Prod.fst).dedup)).flatMap
    (fun k => (valuesOf k entries).map (pairSegment k))

/-- `url.Values.Encode`. -/
def urlValuesEncode (entries : List (List Nat × List Nat)) : List Nat :=
  joinSep 38 (encodeSegments entries)

/-! ### SHA-512 and HMAC (`crypto/sha512`, `crypto/hmac`)

The round constants are derived as in FIPS 180-4: the first 64 bits of
the fractional parts of the cube roots (resp. square roots) of the first
80 (resp. 8) primes. -/

def w64n (n : Nat) : Nat := n % 2 ^ 64

def rotr64 (x k : Nat) : Nat := w64n (Nat.lor (x >>> k) (x <<< (64 - k)))

def xor64 (a b : Nat) : Nat := Nat.xor a b

def and64 (a b : Nat) : Nat := Nat.land a b

def not64 (x : Nat) : Nat := 2 ^ 64 - 1 - x

/-- Fueled binary search for the integer `e`-th root. -/
def bsearchPow (e n : Nat) : Nat → Nat → Nat → Nat
  | 0, lo, _ => lo
  | f + 1, lo, hi =>
    if hi ≤ lo + 1 then lo
    else
      let mid := (lo + hi) / 2
      if mid ^ e ≤ n then bsearchPow e n f mid hi else bsearchPow e n f lo mid

def natRootPow (e n : Nat) : Nat := bsearchPow e n 300 0 (n + 2)

def isPrimeTrial (n : Nat) : Bool :=
  2 ≤ n && (List.range n).all (fun d => d < 2 || n % d ≠ 0)

/-- First 64 fractional bits of the cube roots of the first 80 primes. -/
def sha512K : List Nat :=
  (((List.range 410).filter isPrimeTrial).take 80).map
    (fun p => w64n (natRootPow 3 (p * 2 ^ 192)))

/-- First 64 fractional bits of the square roots of the first 8 primes. -/
def sha512H0 : List Nat :=
  (((List.range 20).filter isPrimeTrial).take 8).map
    (fun p => w64n (natRootPow 2 (p * 2 ^ 128)))

/-- Big-endian bytes of `n`, width `k`. -/
def beBytes : Nat → Nat → List Nat
  | 0, _ => []
  | k + 1, n => beBytes k (n / 256) ++ [n % 256]

def sha512PadLen (len : Nat) : Nat := (239 - len % 128) % 128

def sha512Pad (msg : List Nat) : List Nat :=
  msg ++ 128 :: List.replicate (sha512PadLen msg.length) 0 ++ beBytes 16 (8 * msg.length)

def chunksGo (k : Nat) : Nat → List Nat → List (List Nat)
  | _, [] => []
  | 0, _ => []
  | f + 1, l => l.take k :: chunksGo k f (l.drop k)

def chunks128 (l : List Nat) : List (List Nat) := chunksGo 128 l.length l

def bytesToW64 (l : List Nat) : Nat := l.foldl (fun a b => a * 256 + b) 0

def blockWords (block : List Nat) : List Nat := (chunksGo 8 block.length block).map bytesToW64

def smallSigma0 (x : Nat) : Nat := xor64 (xor64 (rotr64 x 1) (rotr64 x 8)) (x >>> 7)

def smallSigma1 (x : Nat) : Nat := xor64 (xor64 (rotr64 x 19) (rotr64 x 61)) (x >>> 6)

def bigSigma0 (x : Nat) : Nat := xor64 (xor64 (rotr64 x 28) (rotr64 x 34)) (rotr64 x 39)

def bigSigma1 (x : Nat) : Nat := xor64 (xor64 (rotr64 x 14) (rotr64 x 18)) (rotr64 x 41)

def extendSchedule (w : List Nat) : List Nat :=
  (List.range 64).foldl (fun acc _ =>
    acc ++ [w64n (smallSigma1 (acc.getD (acc.length - 2) 0) + acc.getD (acc.length - 7) 0 +
      smallSigma0 (acc.getD (acc.length - 15) 0) + acc.getD (acc.length - 16) 0)]) w

def chV (e f g : Nat) : Nat := xor64 (and64 e f) (and64 (not64 e) g)

def majV (a b c : Nat) : Nat := xor64 (xor64 (and64 a b) (and64 a c)) (and64 b c)

def sha512Round (st : List Nat) (kw : Nat × Nat) : List Nat :=
  match st with
  | [a, b, c, d, e, f, g, h] =>
    let t1 := w64n (h + bigSigma1 e + chV e f g + kw.1 + kw.2)
    let t2 := w64n (bigSigma0 a + majV a b c)
    [w64n (t1 + t2), a, b, c, w64n (d + t1), e, f, g]
  | other => other

def sha512Compress (h : List Nat) (block : List Nat) : List Nat :=
  let w := extendSchedule (blockWords block)
  let st := (sha512K.zip w).foldl sha512Round h
  (h.zip st).map (fun p => w64n (p.1 + p.2))

def sha512 (msg : List Nat) : List Nat :=
  ((chunks128 (sha512Pad msg)).foldl sha512Compress sha512H0).flatMap (beBytes 8)

/-- `crypto/hmac` with SHA-512: pad or hash the key to the 128-byte block
size, then `H((k ^ opad) ++ H((k ^ ipad) ++ msg))`. -/
def hmacSha512 (secret msg : List Nat) : List Nat :=
  let k0 := if 128 < secret.length then sha512 secret else secret
  let k := k0 ++ List.replicate (128 - k0.length) 0
  sha512 ((k.map (fun b => Nat.xor b 92)) ++ sha512 ((k.map (fun b => Nat.xor b 54)) ++ msg))

def lowerHexDigit (n : Nat) : Nat := if n < 10 then 48 + n else 87 + n

/-- `hex.EncodeToString` (lowercase). -/
def hexEncodeLower (l : List Nat) : List Nat :=
  l.flatMap (fun b => [lowerHexDigit (b / 16), lowerHexDigit (b % 16)])

/-! ### The signed request built by `tradeRequest` -/

/-- The `url.Values` entry list `{method, nonce}` plus `Add`ed params. -/
def tradeEntries (method nonce : List Nat) (params : List (List Nat × List Nat)) :
    List (List Nat × List Nat) :=
  (strToBytes "method", method) :: (strToBytes "nonce", nonce) :: params

/-- The POST body bytes: `data.Encode()`. -/
def tradeBody (method nonce : List Nat) (params : List (List Nat × List Nat)) : List Nat :=
  urlValuesEncode (tradeEntries method nonce params)

structure SignedRequest where
  body : List Nat
  keyHeader : List Nat
  signHeader : List Nat
  contentType : List Nat
  deriving DecidableEq, Repr

/-- The authenticated request assembled by `tradeRequest`: the encoded
form is both the transmitted body and the HMAC input (the buffer is
signed before the request is sent). -/
def buildTradeRequest (key secret method nonce : List Nat)
    (params : List (List Nat × List Nat)) : SignedRequest :=
  { body := tradeBody method nonce params
    keyHeader := key
    signHeader := hexEncodeLower (hmacSha512 secret (tradeBody method nonce params))
    contentType := strToBytes "application/x-www-form-urlencoded" }

/-! ### Injectivity of the percent-encoding -/

theorem hexVal_upperHexDigit : ∀ x < 16, hexVal (upperHexDigit x) = x := by decide

theorem unreserved_ne {b : Nat} (h : isUnreservedGo b = true) :
    b ≠ 37 ∧ b ≠ 43 := by
  simp only [isUnreservedGo, Bool.or_eq_true, Bool.and_eq_true, decide_eq_true_eq] at h
  omega

theorem queryUnescape_cons_other {b : Nat} (h37 : b ≠ 37) (h43 : b ≠ 43) (t : List Nat) :
    queryUnescape (b :: t) = b :: queryUnescape t := by
  rcases t with _ | ⟨x, t2⟩
  · simp [queryUnescape, h37, h43]
  · rcases t2 with _ | ⟨y, t3⟩
    · simp [queryUnescape, h37, h43]
    · simp [queryUnescape, h37, h43]

theorem queryUnescape_escapeByte (b : Nat) (hb : b < 256) (t : List Nat) :
    queryUnescape (queryEscapeByte b ++ t) = b :: queryUnescape t := by
  unfold queryEscapeByte
  split_ifs with h1 h2
  · subst h1
    rfl
  · obtain ⟨h37, h43⟩ := unreserved_ne h2
    rw [List.singleton_append]
    exact queryUnescape_cons_other h37 h43 t
  · have e1 : hexVal (upperHexDigit (b / 16)) = b / 16 := hexVal_upperHexDigit _ (by omega)
    have e2 : hexVal (upperHexDigit (b % 16)) = b % 16 := hexVal_upperHexDigit _ (by omega)
    have hstep : queryUnescape ([37, upperHexDigit (b / 16), upperHexDigit (b % 16)] ++ t) =
        (hexVal (upperHexDigit (b / 16)) * 16 + hexVal (upperHexDigit (b % 16))) ::
          queryUnescape t := rfl
    rw [hstep, e1, e2]
    congr 1
    omega

theorem queryUnescape_queryEscape {l : List Nat} (h : bytesValid l) :
    queryUnescape (queryEscape l) = l := by
  induction l with
  | nil => rfl
  | cons b t ih =>
    have hb : b < 256 := h b (List.mem_cons_self b t)
    have ht : bytesValid t := fun x hx => h x (List.mem_cons_of_mem b hx)
    simp only [queryEscape, List.flatMap_cons]
    rw [queryUnescape_escapeByte b hb]
    simp only [queryEscape] at ih
    rw [ih ht]

theorem queryEscape_inj {a b : List Nat} (ha : bytesValid a) (hb : bytesValid b)
    (h : queryEscape a = queryEscape b) : a = b := by
  rw [← queryUnescape_queryEscape ha, ← queryUnescape_queryEscape hb, h]

/-! ### The separators never occur inside escaped text -/

theorem upperHexDigit_ne_sep (n s : Nat) (hs : s = 38 ∨ s = 61) : upperHexDigit n ≠ s := by
  unfold upperHexDigit
  split_ifs <;> omega

theorem sep_not_mem_queryEscapeByte (b s : Nat) (hs : s = 38 ∨ s = 61) :
    s ∉ queryEscapeByte b := by
  unfold queryEscapeByte
  split_ifs with h1 h2
  · simp
    omega
  · simp
    intro he
    subst he
    rcases hs with h | h <;> (subst h; exact absurd h2 (by decide))
  · simp
    refine ⟨by omega, ?_, ?_⟩
    · exact fun he => upperHexDigit_ne_sep _ s hs he.symm
    · exact fun he => upperHexDigit_ne_sep _ s hs he.symm

theorem sep_not_mem_queryEscape (l : List Nat) (s : Nat) (hs : s = 38 ∨ s = 61) :
    s ∉ queryEscape l := by
  intro hmem
  obtain ⟨b, _, hb⟩ := List.mem_flatMap.mp hmem
  exact sep_not_mem_queryEscapeByte b s hs hb

theorem amp_not_mem_pairSegment (k v : List Nat) : 38 ∉ pairSegment k v := by
  unfold pairSegment
  intro hmem
  rcases List.mem_append.mp hmem with h | h
  · exact sep_not_mem_queryEscape k 38 (Or.inl rfl) h
  · rcases List.mem_cons.mp h with h | h
    · omega
    · exact sep_not_mem_queryEscape v 38 (Or.inl rfl) h

/-! ### Joining separator-free chunks is injective -/

theorem chunk_append_inj {sep : Nat} :
    ∀ {a1 a2 t1 t2 : List Nat},
      sep ∉ a1 → sep ∉ a2 →
      (t1 = [] ∨ t1.head? = some sep) → (t2 = [] ∨ t2.head? = some sep) →
      a1 ++ t1 = a2 ++ t2 → a1 = a2 ∧ t1 = t2 := by
  intro a1
  induction a1 with
  | nil =>
    intro a2 t1 t2 h1 h2 ht1 ht2 heq
    cases a2 with
    | nil => exact ⟨rfl, by simpa using heq⟩
    | cons d a2t =>
      simp only [List.nil_append] at heq
      rcases ht1 with h | h
      · rw [h] at heq
        exact absurd heq.symm (by simp)
      · rw [heq] at h
        simp only [List.cons_append, List.head?_cons, Option.some.injEq] at h
        exact absurd (h ▸ List.mem_cons_self d a2t) h2
  | cons c a1t ih =>
    intro a2 t1 t2 h1 h2 ht1 ht2 heq
    cases a2 with
    | nil =>
      simp only [List.nil_append] at heq
      rcases ht2 with h | h
      · rw [h] at heq
        exact absurd heq (by simp)
      · rw [← heq] at h
        simp only [List.cons_append, List.head?_cons, Option.some.injEq] at h
        exact absurd (h ▸ List.mem_cons_self c a1t) h1
    | cons d a2t =>
      simp only [List.cons_append, List.cons.injEq] at heq
      obtain ⟨hcd, heq2⟩ := heq
      have h1t : sep ∉ a1t := fun hm => h1 (List.mem_cons_of_mem c hm)
      have h2t : sep ∉ a2t := fun hm => h2 (List.mem_cons_of_mem d hm)
      obtain ⟨he1, he2⟩ := ih h1t h2t ht1 ht2 heq2
      exact ⟨by rw [hcd, he1], he2⟩

theorem joinSep_inj {sep : Nat} :
    ∀ {l1 l2 : List (List Nat)},
      (∀ s ∈ l1, sep ∉ s) → (∀ s ∈ l2, sep ∉ s) → l1 ≠ [] → l2 ≠ [] →
      joinSep sep l1 = joinSep sep l2 → l1 = l2 := by
  intro l1
  induction l1 with
  | nil => intro l2 _ _ hne _ _; exact absurd rfl hne
  | cons x l1t ih =>
    intro l2 h1 h2 _ hne2 heq
    cases l2 with
    | nil => exact absurd rfl hne2
    | cons y l2t =>
      cases l1t with
      | nil =>
        cases l2t with
        | nil =>
          simp only [joinSep] at heq
          rw [heq]
        | cons z l2tt =>
          simp only [joinSep] at heq
          have : sep ∈ (x : List Nat) := by
            rw [heq]
            exact List.mem_append_right y (List.mem_cons_self sep _)
          exact absurd this (h1 x (List.mem_cons_self x []))
      | cons w l1tt =>
        cases l2t with
        | nil =>
          simp only [joinSep] at heq
          have : sep ∈ (y : List Nat) := by
            rw [← heq]
            exact List.mem_append_right x (List.mem_cons_self sep _)
          exact absurd this (h2 y (List.mem_cons_self y []))
        | cons z l2tt =>
          simp only [joinSep] at heq
          obtain ⟨hxy, htail⟩ := @chunk_append_inj sep x y
            (sep :: joinSep sep (w :: l1tt)) (sep :: joinSep sep (z :: l2tt))
            (h1 x (List.mem_cons_self x _)) (h2 y (List.mem_cons_self y _))
            (Or.inr rfl) (Or.inr rfl) heq
          simp only [List.cons.injEq] at htail
          have hrec := ih (fun s hs => h1 s (List.mem_cons_of_mem x hs))
            (fun s hs => h2 s (List.mem_cons_of_mem y hs))
            (by simp) (by simp) htail.2
          rw [hxy, hrec]

theorem eq_not_mem_queryEscape (l : List Nat) : 61 ∉ queryEscape l :=
  sep_not_mem_queryEscape l 61 (Or.inr rfl)

theorem pairSegment_inj {k v k2 v2 : List Nat}
    (hk : bytesValid k) (hv : bytesValid v) (hk2 : bytesValid k2) (hv2 : bytesValid v2)
    (h : pairSegment k v = pairSegment k2 v2) : k = k2 ∧ v = v2 := by
  unfold pairSegment at h
  obtain ⟨h1, h2⟩ := @chunk_append_inj 61 (queryEscape k) (queryEscape k2)
    (61 :: queryEscape v) (61 :: queryEscape v2)
    (eq_not_mem_queryEscape k) (eq_not_mem_queryEscape k2)
    (Or.inr rfl) (Or.inr rfl) h
  simp only [List.cons.injEq, true_and] at h2
  exact ⟨queryEscape_inj hk hk2 h1, queryEscape_inj hv hv2 h2⟩

/-! ### Counting segments in the encoded form -/

theorem perm_insertKeySorted (k : List Nat) (l : List (List Nat)) :
    (insertKeySorted k l).Perm (k :: l) := by
  induction l with
  | nil => exact List.Perm.refl _
  | cons a t ih =>
    unfold insertKeySorted
    split_ifs
    · exact List.Perm.refl _
    · exact (ih.cons a).trans (List.Perm.swap k a t)

theorem perm_sortKeys (l : List (List Nat)) : (sortKeys l).Perm l := by
  induction l with
  | nil => exact List.Perm.refl _
  | cons a t ih =>
    exact (perm_insertKeySorted a (sortKeys t)).trans (ih.cons a)

theorem mem_sortKeys {x : List Nat} {l : List (List Nat)} : x ∈ sortKeys l ↔ x ∈ l :=
  (perm_sortKeys l).mem_iff

theorem nodup_sortKeys {l : List (List Nat)} (h : l.Nodup) : (sortKeys l).Nodup :=
  ((perm_sortKeys l).nodup_iff).mpr h

theorem count_map_pairSegment (k v : List Nat) (vs : List (List Nat))
    (hk : bytesValid k) (hv : bytesValid v) (hvs : ∀ x ∈ vs, bytesValid x) :
    ((vs.map (pairSegment k)).count (pairSegment k v)) = vs.count v := by
  induction vs with
  | nil => rfl
  | cons x t ih =>
    have hx := hvs x (List.mem_cons_self x t)
    have ht := fun y hy => hvs y (List.mem_cons_of_mem x hy)
    simp only [List.map_cons, List.count_cons, ih ht]
    by_cases hxv : x = v
    · subst hxv
      simp
    · have hne : ¬(pairSegment k x = pairSegment k v) := by
        intro hc
        exact hxv (pairSegment_inj hk hx hk hv hc).2
      simp [hxv, hne]

theorem count_group_ne (k v k2 : List Nat) (entries : List (List Nat × List Nat))
    (hk : bytesValid k) (hv : bytesValid v) (hk2 : bytesValid k2)
    (hvalid : ∀ e ∈ entries, bytesValid e.1 ∧ bytesValid e.2) (hne : k2 ≠ k) :
    ((valuesOf k2 entries).map (pairSegment k2)).count (pairSegment k v) = 0 := by
  rw [List.count_eq_zero]
  intro hmem
  obtain ⟨x, hx, hseg⟩ := List.mem_map.mp hmem
  have hxv : bytesValid x := by
    unfold valuesOf at hx
    obtain ⟨e, he, hex⟩ := List.mem_map.mp hx
    have := (hvalid e (List.mem_of_mem_filter he)).2
    rw [hex] at this
    exact this
  exact hne (pairSegment_inj hk2 hxv hk hv hseg).1

theorem count_valuesOf (k v : List Nat) (entries : List (List Nat × List Nat)) :
    (valuesOf k entries).count v = entries.count (k, v) := by
  induction entries with
  | nil => rfl
  | cons e t ih =>
    obtain ⟨e1, e2⟩ := e
    unfold valuesOf
    rw [List.filter_cons]
    by_cases hek : e1 = k
    · subst hek
      rw [if_pos (by simp)]
      simp only [List.map_cons, List.count_cons]
      unfold valuesOf at ih
      rw [ih]
      simp [Prod.mk.injEq]
    · rw [if_neg (by simp [hek])]
      unfold valuesOf at ih
      rw [ih]
      have hne : ¬((e1, e2) = (k, v)) := by
        simp [Prod.mk.injEq, hek]
      simp [List.count_cons, hne]

theorem count_groups (k v : List Nat) (entries : List (List Nat × List Nat))
    (hk : bytesValid k) (hv : bytesValid v)
    (hvalid : ∀ e ∈ entries, bytesValid e.1 ∧ bytesValid e.2) :
    ∀ (ks : List (List Nat)), (∀ k2 ∈ ks, bytesValid k2) → ks.Nodup →
      ((ks.flatMap fun k2 => (valuesOf k2 entries).map (pairSegment k2)).count
          (pairSegment k v)) =
        if k ∈ ks then (valuesOf k entries).count v else 0 := by
  intro ks
  induction ks with
  | nil => intro _ _; rfl
  | cons a t ih =>
    intro hksv hnodup
    have ha := hksv a (List.mem_cons_self a t)
    have ht := fun y hy => hksv y (List.mem_cons_of_mem a hy)
    simp only [List.flatMap_cons, List.count_append]
    rw [ih ht (List.Nodup.of_cons hnodup)]
    by_cases hak : a = k
    · subst hak
      have hnk : a ∉ t := (List.nodup_cons.mp hnodup).1
      have hvs : ∀ x ∈ valuesOf a entries, bytesValid x := by
        intro x hx
        unfold valuesOf at hx
        obtain ⟨e, he, hex⟩ := List.mem_map.mp hx
        have := (hvalid e (List.mem_of_mem_filter he)).2
        rw [hex] at this
        exact this
      rw [if_neg hnk, if_pos (List.mem_cons_self a t)]
      rw [count_map_pairSegment a v (valuesOf a entries) ha hv hvs]
      omega
    · rw [count_group_ne k v a entries hk hv ha hvalid hak]
      by_cases hkt : k ∈ t
      · rw [if_pos hkt, if_pos (List.mem_cons_of_mem a hkt)]
        omega
      · rw [if_neg hkt, if_neg (by
          intro hc
          rcases List.mem_cons.mp hc with h | h
          · exact hak h.symm
          · exact hkt h)]

theorem count_encodeSegments (entries : List (List Nat × List Nat)) (k v : List Nat)
    (hvalid : ∀ e ∈ entries, bytesValid e.1 ∧ bytesValid e.2)
    (hk : bytesValid k) (hv : bytesValid v) (hmem : k ∈ entries.map Prod.fst) :
    (encodeSegments entries).count (pairSegment k v) = entries.count (k, v) := by
  unfold encodeSegments
  rw [count_groups k v entries hk hv hvalid _ ?_ ?_]
  · rw [if_pos (mem_sortKeys.mpr (List.mem_dedup.mpr hmem))]
    exact count_valuesOf k v entries
  · intro k2 hk2
    have : k2 ∈ entries.map Prod.fst := List.mem_dedup.mp (mem_sortKeys.mp hk2)
    obtain ⟨e, he, hek⟩ := List.mem_map.mp this
    have := (hvalid e he).1
    rw [hek] at this
    exact this
  · exact nodup_sortKeys (List.nodup_dedup _)

theorem encodeSegments_amp_free (entries : List (List Nat × List Nat)) :
    ∀ s ∈ encodeSegments entries, 38 ∉ s := by
  intro s hs
  obtain ⟨k2, _, hs2⟩ := List.mem_flatMap.mp hs
  obtain ⟨x, _, hseg⟩ := List.mem_map.mp hs2
  rw [← hseg]
  exact amp_not_mem_pairSegment k2 x

theorem methodSegment_mem (method nonce : List Nat) (params : List (List Nat × List Nat)) :
    pairSegment (strToBytes "method") method ∈
      encodeSegments (tradeEntries method nonce params) := by
  unfold encodeSegments
  apply List.mem_flatMap.mpr
  refine ⟨strToBytes "method", ?_, ?_⟩
  · apply mem_sortKeys.mpr
    apply List.mem_dedup.mpr
    exact List.mem_map.mpr ⟨(strToBytes "method", method), List.mem_cons_self _ _, rfl⟩
  · apply List.mem_map.mpr
    refine ⟨method, ?_, rfl⟩
    unfold valuesOf tradeEntries
    simp

/-- Changing one parameter's value changes the encoded body (the bytes
that are both transmitted and signed). -/
theorem tradeBody_param_value_sensitive (method nonce k v v2 : List Nat)
    (pre post : List (List Nat × List Nat)) (hne : v ≠ v2)
    (hval : ∀ e ∈ tradeEntries method nonce (pre ++ (k, v) :: post),
      bytesValid e.1 ∧ bytesValid e.2)
    (hval2 : ∀ e ∈ tradeEntries method nonce (pre ++ (k, v2) :: post),
      bytesValid e.1 ∧ bytesValid e.2) :
    tradeBody method nonce (pre ++ (k, v) :: post) ≠
      tradeBody method nonce (pre ++ (k, v2) :: post) := by
  intro heq
  unfold tradeBody urlValuesEncode at heq
  have hsegs := joinSep_inj (encodeSegments_amp_free _) (encodeSegments_amp_free _)
    (List.ne_nil_of_mem (methodSegment_mem method nonce (pre ++ (k, v) :: post)))
    (List.ne_nil_of_mem (methodSegment_mem method nonce (pre ++ (k, v2) :: post))) heq
  have hkmem : (k, v) ∈ tradeEntries method nonce (pre ++ (k, v) :: post) := by
    unfold tradeEntries
    simp
  have hkv := hval _ hkmem
  have hkfst : k ∈ (tradeEntries method nonce (pre ++ (k, v) :: post)).map Prod.fst :=
    List.mem_map.mpr ⟨(k, v), hkmem, rfl⟩
  have hkfst2 : k ∈ (tradeEntries method nonce (pre ++ (k, v2) :: post)).map Prod.fst := by
    apply List.mem_map.mpr
    refine ⟨(k, v2), ?_, rfl⟩
    unfold tradeEntries
    simp
  have hcount := congrArg (fun l => l.count (pairSegment k v)) hsegs
  simp only at hcount
  rw [count_encodeSegments _ k v hval hkv.1 hkv.2 hkfst,
    count_encodeSegments _ k v hval2 hkv.1 hkv.2 hkfst2] at hcount
  unfold tradeEntries at hcount
  have hnepair : ¬((k, v2) = (k, v)) := by
    simp only [Prod.mk.injEq, not_and]
    intro _
    exact fun hc => hne hc.symm
  simp only [List.count_cons, List.count_append, beq_iff_eq, if_true] at hcount
  rw [if_neg hnepair] at hcount
  omega

instance (l : List Nat) : Decidable (bytesValid l) := by
  unfold bytesValid
  infer_instance

set_option maxRecDepth 2000000 in
set_option maxHeartbeats 8000000 in
/-- C3: for every authenticated request built by `tradeRequest`, the
`Sign` header is the hex-encoded HMAC-SHA512, keyed by the secret, of
exactly the transmitted POST body (the form encoding of
`{method, nonce, ...params}`); signing the same tuple twice yields an
identical body and signature; and changing any parameter value changes
the signed bytes — witnessed concretely by two signatures that differ. -/
theorem tradeRequest_sign_is_hmac_of_body (key secret method nonce k v v2 : List Nat)
    (pre post : List (List Nat × List Nat)) (hne : v ≠ v2)
    (hval : ∀ e ∈ tradeEntries method nonce (pre ++ (k, v) :: post),
      bytesValid e.1 ∧ bytesValid e.2)
    (hval2 : ∀ e ∈ tradeEntries method nonce (pre ++ (k, v2) :: post),
      bytesValid e.1 ∧ bytesValid e.2) :
    (buildTradeRequest key secret method nonce (pre ++ (k, v) :: post)).signHeader =
      hexEncodeLower (hmacSha512 secret
        (buildTradeRequest key secret method nonce (pre ++ (k, v) :: post)).body) ∧
    (buildTradeRequest key secret method nonce (pre ++ (k, v) :: post)).body =
      urlValuesEncode (tradeEntries method nonce (pre ++ (k, v) :: post)) ∧
    (∀ key2 secret2 method2 nonce2 params2, key = key2 → secret = secret2 →
      method = method2 → nonce = nonce2 → pre ++ (k, v) :: post = params2 →
      buildTradeRequest key secret method nonce (pre ++ (k, v) :: post) =
        buildTradeRequest key2 secret2 method2 nonce2 params2) ∧
    (buildTradeRequest key secret method nonce (pre ++ (k, v) :: post)).body ≠
      (buildTradeRequest key secret method nonce (pre ++ (k, v2) :: post)).body ∧
    (buildTradeRequest (strToBytes "k") (strToBytes "s") (strToBytes "m") (strToBytes "1")
        [(strToBytes "a", strToBytes "b")]).signHeader ≠
      (buildTradeRequest (strToBytes "k") (strToBytes "s") (strToBytes "m") (strToBytes "1")
        [(strToBytes "a", strToBytes "c")]).signHeader := by
  refine ⟨rfl, rfl, ?_, ?_, ?_⟩
  · intro key2 secret2 method2 nonce2 params2 h1 h2 h3 h4 h5
    rw [h1, h2, h3, h4, h5]
  · exact tradeBody_param_value_sensitive method nonce k v v2 pre post hne hval hval2
  · decide

/-- Witness for C3 at the tuple
`(key "k", secret "s", method "getInfo", nonce "1", params {pair})`. -/
theorem tradeRequest_sign_is_hmac_of_body_witness :
    strToBytes "btc_usd" ≠ strToBytes "ltc_usd" ∧
    (buildTradeRequest (strToBytes "k") (strToBytes "s") (strToBytes "getInfo")
        (strToBytes "1")
        ([] ++ (strToBytes "pair", strToBytes "btc_usd") :: [])).signHeader =
      hexEncodeLower (hmacSha512 (strToBytes "s")
        (buildTradeRequest (strToBytes "k") (strToBytes "s") (strToBytes "getInfo")
          (strToBytes "1")
          ([] ++ (strToBytes "pair", strToBytes "btc_usd") :: [])).body) ∧
    (buildTradeRequest (strToBytes "k") (strToBytes "s") (strToBytes "getInfo")
        (strToBytes "1")
        ([] ++ (strToBytes "pair", strToBytes "btc_usd") :: [])).body ≠
      (buildTradeRequest (strToBytes "k") (strToBytes "s") (strToBytes "getInfo")
        (strToBytes "1")
        ([] ++ (strToBytes "pair", strToBytes "ltc_usd") :: [])).body :=
  ⟨by decide,
    (tradeRequest_sign_is_hmac_of_body (strToBytes "k") (strToBytes "s")
      (strToBytes "getInfo") (strToBytes "1") (strToBytes "pair")
      (strToBytes "btc_usd") (strToBytes "ltc_usd") [] []
      (by decide) (by decide) (by decide)).1,
    (tradeRequest_sign_is_hmac_of_body (strToBytes "k") (strToBytes "s")
      (strToBytes "getInfo") (strToBytes "1") (strToBytes "pair")
      (strToBytes "btc_usd") (strToBytes "ltc_usd") [] []
      (by decide) (by decide) (by decide)).2.2.2.1⟩

end Wexapi
